import Mathlib

/-!
# M5Atom USB jiggler: embedding of `src/main.cpp`

The firmware is a cooperative loop over file-scope globals.  The embedding
keeps every global as a field of `State`, adds the log `out` of the calls
made on the external devices (keyboard, mouse, LED driver), and turns every
read of the outside world (`millis()`, `digitalRead`, `Keyboard.isConnected()`)
into an argument of the function that performs the read, one argument per
call site.  `uint32_t` values are naturals below `2^32`; arithmetic on them
is reduced modulo `2^32` explicitly.
-/

namespace M5Atom

/-! ## Machine arithmetic -/

/-- Number of values of a `uint32_t`. -/
def U32 : Nat := 4294967296

/-- Sum of two `uint32_t` values, as computed by the machine. -/
def add32 (a b : Nat) : Nat := (a + b) % U32

/-- Difference of two `uint32_t` values, as computed by the machine. -/
def sub32 (a b : Nat) : Nat := (a % U32 + (U32 - b % U32)) % U32

/-- Value of the cast `(int32_t)x` of a `uint32_t` value. -/
def toInt32 (x : Nat) : Int :=
  if x % U32 < 2147483648 then ((x % U32 : Nat) : Int) else ((x % U32 : Nat) : Int) - 4294967296

/-! ## Constants (lines 6-23) -/

def NUM_LEDS : Nat := 25
def TEXT_TO_TYPE : String := "Hello from ATOM!\n"
def DEBOUNCE_MS : Nat := 40
def LED_EVENT_MS : Nat := 1000
def MOUSE_PERIOD_MS : Nat := 120000
def MOUSE_STEP : Int := 10

/-! ## Data -/

/-- Pixel value of the LED library: three 8-bit channels. -/
structure CRGB where
  r : Nat
  g : Nat
  b : Nat
  deriving DecidableEq, Repr

/-- Value of `CRGB::Black`. -/
def CRGB.Black : CRGB := ⟨0, 0, 0⟩
/-- Value of `CRGB::Red`. -/
def CRGB.Red : CRGB := ⟨255, 0, 0⟩
/-- Value of `CRGB::Blue`. -/
def CRGB.Blue : CRGB := ⟨0, 0, 255⟩

/-- Hue, saturation and value triple of the LED library. -/
structure CHSV where
  h : Nat
  s : Nat
  v : Nat
  deriving DecidableEq, Repr

/-- The enum of line 39. -/
inductive JiggleState where
  | Idle
  | Up
  | Down
  | Left
  | Right
  deriving DecidableEq, Repr

/-- Calls made on the external devices. -/
inductive Event where
  /-- Call of `Keyboard.print(text)` -/
  | print (text : String)
  /-- Call of `Mouse.move(dx, dy)` -/
  | move (dx dy : Int)
  /-- Call of `FastLED.show()` with the content of `leds` at the call -/
  | flush (frame : List CRGB)
  deriving DecidableEq, Repr

/-- The globals of lines 13-46, and the log of device calls. -/
structure State where
  leds : List CRGB
  lastRaw : Bool
  stable : Bool
  lastChangeMs : Nat
  pressedEdge : Bool
  millis_buf : Nat
  nextMouseMs : Nat
  jiggle : JiggleState
  jiggleMs : Nat
  ledOverride : Bool
  ledColor : CRGB
  ledUntil : Nat
  out : List Event
  deriving DecidableEq, Repr

/-- The initial values of the globals (lines 13-46). -/
def State.boot : State where
  leds := List.replicate NUM_LEDS CRGB.Black
  lastRaw := true
  stable := true
  lastChangeMs := 0
  pressedEdge := false
  millis_buf := 0
  nextMouseMs := 0
  jiggle := JiggleState.Idle
  jiggleMs := 0
  ledOverride := false
  ledColor := CRGB.Black
  ledUntil := 0
  out := []

/-! ## Functions -/

/-- Lines 49-53: `pin` is the level read on PIN_DISABLE (`true` is HIGH). -/
def mouseDisabled (pin : Bool) : Bool := pin == false

/-- Lines 55-60: `now` is the value of `millis()` at line 59. -/
def setLedEvent (c : CRGB) (ms : Nat) (now : Nat) (s : State) : State :=
  { s with ledOverride := true, ledColor := c, ledUntil := add32 now ms }

/-- Lines 62-66. -/
def showSolid (c : CRGB) (s : State) : State :=
  let frame := (List.range NUM_LEDS).map (fun _ => c)
  { s with leds := frame, out := s.out ++ [Event.flush frame] }

/-- The hue of pixel `i` at line 73, for the clock value `now` of line 71. -/
def idleHue (now : Nat) (i : Nat) : Nat :=
  let t := (now % U32 / 16) % 256
  (t + (i * 7) % 256) % 256

/-- Lines 69-77: `now` is the value of `millis()` at line 71; `hsv2rgb` is the
conversion the LED library applies when a `CHSV` is stored in a `CRGB`. -/
def renderIdleGradient (hsv2rgb : CHSV → CRGB) (now : Nat) (s : State) : State :=
  let frame := (List.range NUM_LEDS).map (fun i => hsv2rgb ⟨idleHue now i, 255, 60⟩)
  { s with leds := frame, out := s.out ++ [Event.flush frame] }

/-- Lines 79-90: `now` is the value of `millis()` at line 81, `tGrad` the one
at line 71 when the gradient is rendered. -/
def updateLed (hsv2rgb : CHSV → CRGB) (now tGrad : Nat) (s : State) : State :=
  if s.ledOverride then
    if toInt32 (sub32 now s.ledUntil) < 0 then
      showSolid s.ledColor s
    else
      renderIdleGradient hsv2rgb tGrad { s with ledOverride := false }
  else
    renderIdleGradient hsv2rgb tGrad s

/-- Lines 92-113: `pin` is the level read on PIN_BTN (`true` is HIGH), `now`
the value of `millis()` at line 96. -/
def updateButton (pin : Bool) (now : Nat) (s : State) : State :=
  let raw := (pin == true)
  let s1 := if raw != s.lastRaw then { s with lastRaw := raw, lastChangeMs := now % U32 } else s
  if sub32 now s1.lastChangeMs ≥ DEBOUNCE_MS then
    if s1.stable != s1.lastRaw then
      let prev := s1.stable
      let s2 := { s1 with stable := s1.lastRaw }
      if prev == true && s2.stable == false then
        { s2 with pressedEdge := true }
      else s2
    else s1
  else s1

/-- Lines 116-123: `connected` is the value of `Keyboard.isConnected()`,
`tLed` the value of `millis()` inside `setLedEvent`. -/
def doKeyboardAction (connected : Bool) (tLed : Nat) (s : State) : State :=
  if !connected then s
  else
    let s1 := setLedEvent CRGB.Red LED_EVENT_MS tLed s
    { s1 with out := s1.out ++ [Event.print TEXT_TO_TYPE] }

/-- Lines 126-136: `connected` is the value of `Keyboard.isConnected()`, `pin`
the level of PIN_DISABLE, `tLed` the value of `millis()` inside `setLedEvent`
and `now` the one at line 135. -/
def startMouseJiggle (connected : Bool) (pin : Bool) (tLed now : Nat) (s : State) : State :=
  if !connected then s
  else if mouseDisabled pin then s
  else
    let s1 := setLedEvent CRGB.Blue LED_EVENT_MS tLed s
    { s1 with jiggle := JiggleState.Up, jiggleMs := now % U32 }

/-- Lines 138-170: `connected` is the value of `Keyboard.isConnected()`, `pin`
the level of PIN_DISABLE and `now` the value of `millis()` at line 145. -/
def updateMouseJiggle (connected : Bool) (pin : Bool) (now : Nat) (s : State) : State :=
  if s.jiggle = JiggleState.Idle then s
  else if !connected then { s with jiggle := JiggleState.Idle }
  else if mouseDisabled pin then { s with jiggle := JiggleState.Idle }
  else if sub32 now s.jiggleMs < 25 then s
  else
    let s1 := { s with jiggleMs := now % U32 }
    match s1.jiggle with
    | JiggleState.Up =>
        { s1 with out := s1.out ++ [Event.move 0 (-MOUSE_STEP)], jiggle := JiggleState.Down }
    | JiggleState.Down =>
        { s1 with out := s1.out ++ [Event.move 0 MOUSE_STEP], jiggle := JiggleState.Left }
    | JiggleState.Left =>
        { s1 with out := s1.out ++ [Event.move (-MOUSE_STEP) 0], jiggle := JiggleState.Right }
    | JiggleState.Right =>
        { s1 with out := s1.out ++ [Event.move MOUSE_STEP 0], jiggle := JiggleState.Idle }
    | JiggleState.Idle => { s1 with jiggle := JiggleState.Idle }

/-- Lines 172-187, the part that touches the globals: `now` is the value of
`millis()` at line 186. -/
def setup (now : Nat) (s : State) : State :=
  let s1 := showSolid CRGB.Black s
  { s1 with nextMouseMs := add32 now MOUSE_PERIOD_MS }

/-- What one pass of `loop` reads from the outside world, one field per call
site, in the order of the calls. -/
structure TickInput where
  /-- Level of PIN_BTN, line 94 -/
  btnPin : Bool
  /-- Value of `millis()`, line 96 -/
  tButton : Nat
  /-- Value of `millis()`, line 196 -/
  tCooldown : Nat
  /-- Value of `Keyboard.isConnected()`, line 119 -/
  kbConnected : Bool
  /-- Value of `millis()` in `setLedEvent` called from line 121 -/
  tKbLed : Nat
  /-- Value of `millis()`, line 198 -/
  tKbStamp : Nat
  /-- Value of `millis()`, line 202 -/
  tNow : Nat
  /-- Value of `Keyboard.isConnected()`, line 129 -/
  armConnected : Bool
  /-- Level of PIN_DISABLE, line 130 -/
  armPin : Bool
  /-- Value of `millis()` in `setLedEvent` called from line 132 -/
  tArmLed : Nat
  /-- Value of `millis()`, line 135 -/
  tArm : Nat
  /-- Value of `Keyboard.isConnected()`, line 142 -/
  jigConnected : Bool
  /-- Level of PIN_DISABLE, line 143 -/
  jigPin : Bool
  /-- Value of `millis()`, line 145 -/
  tJiggle : Nat
  /-- Value of `millis()`, line 81 -/
  tLed : Nat
  /-- Value of `millis()`, line 71 -/
  tGradient : Nat
  deriving DecidableEq, Repr

/-- Lines 194-200 of `loop`: the keyboard trigger. -/
def loopKeyboard (i : TickInput) (s : State) : State :=
  if s.pressedEdge then
    let s1 := { s with pressedEdge := false }
    if sub32 i.tCooldown s1.millis_buf > 1000 then
      let s2 := doKeyboardAction i.kbConnected i.tKbLed s1
      { s2 with millis_buf := i.tKbStamp % U32 }
    else s1
  else s

/-- Lines 202-206 of `loop`: the mouse deadline. -/
def loopMouse (i : TickInput) (s : State) : State :=
  let now := i.tNow % U32
  if toInt32 (sub32 now s.nextMouseMs) ≥ 0 then
    let s1 := { s with nextMouseMs := add32 now MOUSE_PERIOD_MS }
    startMouseJiggle i.armConnected i.armPin i.tArmLed i.tArm s1
  else s

/-- Lines 189-212: one pass of `loop`. -/
def loop (hsv2rgb : CHSV → CRGB) (i : TickInput) (s : State) : State :=
  let s1 := updateButton i.btnPin i.tButton s
  let s2 := loopKeyboard i s1
  let s3 := loopMouse i s2
  let s4 := updateMouseJiggle i.jigConnected i.jigPin i.tJiggle s3
  updateLed hsv2rgb i.tLed i.tGradient s4

/-! ## Runs -/

/-- Feeding a list of samples (level of PIN_BTN, value of `millis()`), oldest
first, to successive calls of `updateButton`. -/
def runButton (s : State) (xs : List (Bool × Nat)) : State :=
  xs.foldl (fun st x => updateButton x.1 x.2 st) s

/-- The raw level observed last before the sample that follows `pre`: the
level of the last sample of `pre`, or the stored one when `pre` is empty. -/
def rawBefore (s0 : State) (pre : List (Bool × Nat)) : Bool :=
  ((pre.map Prod.fst).getLast?).getD s0.lastRaw

/-- The sample list `samples`, whose last sample is taken at `now`, has no raw
flip inside the debounce window that ends at `now`: either its most recent
flip (a sample whose level differs from the level observed before it) is
followed by at least one sample, all at the level of the flip, and was taken
40 ms or more before `now`; or it has no flip at all and the stamp stored
before the first sample is 40 ms or more before `now`.  "40 ms or more
before" is meant on the 32-bit counter, and also on the times themselves when
they are in order. -/
def QuietWindow (s0 : State) (samples : List (Bool × Nat)) (now : Nat) : Prop :=
  (∃ pre r t post, samples = pre ++ (r, t) :: post ∧ r ≠ rawBefore s0 pre ∧
      (∀ x ∈ post, x.1 = r) ∧ post ≠ [] ∧
      DEBOUNCE_MS ≤ sub32 now t ∧ (t ≤ now → DEBOUNCE_MS ≤ now - t)) ∨
  ((∀ x ∈ samples, x.1 = s0.lastRaw) ∧
      DEBOUNCE_MS ≤ sub32 now s0.lastChangeMs ∧
      (s0.lastChangeMs ≤ now → DEBOUNCE_MS ≤ now - s0.lastChangeMs))

/-! ## Observations on the log -/

/-- The texts passed to `Keyboard.print`, oldest first. -/
def sentTexts (out : List Event) : List String :=
  out.filterMap (fun e => match e with
    | Event.print t => some t
    | _ => none)

/-- The arguments of the calls of `Mouse.move`, oldest first. -/
def moves (out : List Event) : List (Int × Int) :=
  out.filterMap (fun e => match e with
    | Event.move dx dy => some (dx, dy)
    | _ => none)

/-- The frames passed to the LED driver by `FastLED.show()`, oldest first. -/
def frames (out : List Event) : List (List CRGB) :=
  out.filterMap (fun e => match e with
    | Event.flush f => some f
    | _ => none)

/-- A pass of `loop` during which every read of `millis()` returns `now`,
PIN_BTN reads `btnPin`, every `Keyboard.isConnected()` returns `connected` and
PIN_DISABLE reads `disablePin`. -/
def TickInput.uniform (now : Nat) (btnPin connected disablePin : Bool) : TickInput where
  btnPin := btnPin
  tButton := now
  tCooldown := now
  kbConnected := connected
  tKbLed := now
  tKbStamp := now
  tNow := now
  armConnected := connected
  armPin := disablePin
  tArmLed := now
  tArm := now
  jigConnected := connected
  jigPin := disablePin
  tJiggle := now
  tLed := now
  tGradient := now

/-- A stand-in for the conversion of the LED library, for evaluating the
firmware at concrete inputs: it copies the three components. -/
def hsvCopy (c : CHSV) : CRGB := ⟨c.h, c.s, c.v⟩

/-- Successive passes of `loop`, one per element of `ticks`, oldest first. -/
def runLoop (hsv2rgb : CHSV → CRGB) (s : State) (ticks : List TickInput) : State :=
  ticks.foldl (fun st i => loop hsv2rgb i st) s

/-! ## The jiggle sequence as the specification states it -/

/-- The order of the jiggle states stated by the specification. -/
def jiggleCycle : List JiggleState :=
  [JiggleState.Up, JiggleState.Down, JiggleState.Left, JiggleState.Right, JiggleState.Idle]

/-- The four pointer moves stated by the specification, in their order. -/
def jiggleMoves : List (Int × Int) := [(0, -10), (0, 10), (-10, 0), (10, 0)]

/-- Position of a state in `jiggleCycle`. -/
def cycleIndex : JiggleState → Nat
  | JiggleState.Up => 0
  | JiggleState.Down => 1
  | JiggleState.Left => 2
  | JiggleState.Right => 3
  | JiggleState.Idle => 4

/-- Successive calls of `updateMouseJiggle`, one per element of `calls` (value
of `Keyboard.isConnected()`, level of PIN_DISABLE, value of `millis()`),
oldest first. -/
def runJiggle (s : State) (calls : List (Bool × Bool × Nat)) : State :=
  calls.foldl (fun st c => updateMouseJiggle c.1 c.2.1 c.2.2 st) s

/-- The jiggle state before the first call and after each call of a run. -/
def jiggleTrace (s : State) : List (Bool × Bool × Nat) → List JiggleState
  | [] => [s.jiggle]
  | c :: cs => s.jiggle :: jiggleTrace (updateMouseJiggle c.1 c.2.1 c.2.2 s) cs

/-- The clock advances between two successive reads `a` then `b` of
`millis()`: by 1 ms at least and by less than `2^31` ms. -/
def Advancing (a b : Nat) : Prop := 0 < sub32 b a ∧ sub32 b a < 2147483648

instance (a b : Nat) : Decidable (Advancing a b) :=
  inferInstanceAs (Decidable (0 < sub32 b a ∧ sub32 b a < 2147483648))

/-! ## The overlay as the specification states it -/

/-- The idle gradient stated by the specification for the clock value `now`:
pixel `i` is the conversion of `CHSV(((now >> 4) + 7*i) mod 256, 255, 60)`. -/
def specIdleFrame (hsv2rgb : CHSV → CRGB) (now : Nat) : List CRGB :=
  (List.range 25).map (fun i => hsv2rgb ⟨((now >>> 4) + 7 * i) % 256, 255, 60⟩)

/-- Successive calls of `updateLed`, one per element of `calls` (value of
`millis()` at line 81, value of `millis()` at line 71), oldest first. -/
def runLed (hsv2rgb : CHSV → CRGB) (s : State) (calls : List (Nat × Nat)) : State :=
  calls.foldl (fun st c => updateLed hsv2rgb c.1 c.2 st) s

/-- The successor of a jiggle state in the cycle stated by the specification
(Idle has none and is mapped to itself). -/
def specNext : JiggleState → JiggleState
  | JiggleState.Up => JiggleState.Down
  | JiggleState.Down => JiggleState.Left
  | JiggleState.Left => JiggleState.Right
  | JiggleState.Right => JiggleState.Idle
  | JiggleState.Idle => JiggleState.Idle

/-- The pointer move that the specification attaches to a jiggle state. -/
def specMove : JiggleState → List (Int × Int)
  | JiggleState.Up => [(0, -10)]
  | JiggleState.Down => [(0, 10)]
  | JiggleState.Left => [(-10, 0)]
  | JiggleState.Right => [(10, 0)]
  | JiggleState.Idle => []

/-! ## A bouncing input -/

/-- The sample list (level of PIN_BTN, value of `millis()`), read after the
raw level `raw`, keeps bouncing: every sample that is not a raw flip is taken
less than 40 ms after the most recent raw flip.  `window` is the time of the
most recent flip; it is `none` as long as no flip has been seen since the
stable level was the raw level. -/
def Bouncing (raw : Bool) (window : Option Nat) : List (Bool × Nat) → Bool
  | [] => true
  | (r, t) :: xs =>
      if r ≠ raw then Bouncing r (some t) xs
      else (match window with
            | none => true
            | some w => decide (sub32 t w < DEBOUNCE_MS)) && Bouncing raw window xs

/-- The debounce window open in a state: none when the stable level is the
raw level, the stamp of the last raw flip otherwise. -/
def initialWindow (s : State) : Option Nat :=
  if s.stable = s.lastRaw then none else some s.lastChangeMs

/-! ## The mouse part of `loop` on its own -/

/-- Lines 202-208 of `loop`: the mouse deadline, then `updateMouseJiggle`. -/
def stepMouse (i : TickInput) (s : State) : State :=
  updateMouseJiggle i.jigConnected i.jigPin i.tJiggle (loopMouse i s)

/-- Successive runs of lines 202-208, one per element of `ticks`. -/
def runMouse (s : State) (ticks : List TickInput) : State :=
  ticks.foldl (fun st i => stepMouse i st) s

/-- Two states agree on what the mouse part of `loop` reads and writes, the
overlay apart: the deadline, the jiggle state, the step timestamp and the
moves emitted. -/
def MouseAgree (a b : State) : Prop :=
  a.nextMouseMs = b.nextMouseMs ∧ a.jiggle = b.jiggle ∧ a.jiggleMs = b.jiggleMs ∧
    moves a.out = moves b.out

/-- A run of seven passes of `loop`, transport connected and disable input not
asserted throughout, with a gap of two minutes between the second pass and
the third. -/
def rearmTicks : List TickInput :=
  [TickInput.uniform 120000 true true true,
   TickInput.uniform 120030 true true true,
   TickInput.uniform 240000 true true true,
   TickInput.uniform 240030 true true true,
   TickInput.uniform 240060 true true true,
   TickInput.uniform 240090 true true true,
   TickInput.uniform 240120 true true true]

/-! ## Jiggle attempts -/

/-- The deadline test of line 203 succeeds in the pass `i` run from `s` (the
parts of `loop` before line 203 leave `nextMouseMs` alone). -/
def deadlineDue (i : TickInput) (s : State) : Bool :=
  decide (0 ≤ toInt32 (sub32 i.tNow s.nextMouseMs))

/-- Number of passes of a run in which the deadline fires, that is in which a
jiggle attempt (`startMouseJiggle`) is made. -/
def attempts (hsv2rgb : CHSV → CRGB) (s : State) : List TickInput → Nat
  | [] => 0
  | i :: is => (if deadlineDue i s then 1 else 0) + attempts hsv2rgb (loop hsv2rgb i s) is

/-! ## The clock within one pass -/

/-- The reads of `millis()` that a pass of `loop` can make, in the order of
the calls. -/
def TickInput.clockReads (i : TickInput) : List Nat :=
  [i.tButton, i.tCooldown, i.tKbLed, i.tKbStamp, i.tNow, i.tArmLed, i.tArm, i.tJiggle,
   i.tLed, i.tGradient]

/-- Total advance of the 32-bit counter along a list of successive reads. -/
def clockAdvance : List Nat → Nat
  | a :: b :: l => sub32 b a + clockAdvance (b :: l)
  | _ => 0

/-! ## Times of the pointer moves -/

/-- The reads of `millis()` that set or test the step timestamp in a run of
passes of `loop` (line 135, then line 145, of each pass), oldest first. -/
def jiggleReads : List TickInput → List Nat
  | [] => []
  | i :: is => i.tArm :: i.tJiggle :: jiggleReads is

/-- The times read at line 145 in the passes of a run that emit a pointer
move, oldest first. -/
def moveTimes (hsv2rgb : CHSV → CRGB) (s : State) : List TickInput → List Nat
  | [] => []
  | i :: is =>
      (if moves (loop hsv2rgb i s).out = moves s.out then [] else [i.tJiggle]) ++
        moveTimes hsv2rgb (loop hsv2rgb i s) is

/-! ## Consumed press edges -/

/-- The keyboard trigger branch of line 194 is entered in the pass `i` run
from `s`: a press edge is pending after `updateButton`. -/
def edgeConsumed (i : TickInput) (s : State) : Bool :=
  (updateButton i.btnPin i.tButton s).pressedEdge

/-- Number of passes of a run in which a press edge is consumed. -/
def edgesConsumed (hsv2rgb : CHSV → CRGB) (s : State) : List TickInput → Nat
  | [] => 0
  | i :: is => (if edgeConsumed i s then 1 else 0) + edgesConsumed hsv2rgb (loop hsv2rgb i s) is

/-! ## Passes of `loop` that request nothing -/

/-- Two states agree on the overlay and on the frames shown. -/
def LedAgree (a b : State) : Prop :=
  a.ledOverride = b.ledOverride ∧ a.ledColor = b.ledColor ∧ a.ledUntil = b.ledUntil ∧
    frames a.out = frames b.out

/-- Two states agree on the button, on `millis_buf`, on the deadline and on
the texts sent. -/
def CoreAgree (a b : State) : Prop :=
  a.lastRaw = b.lastRaw ∧ a.stable = b.stable ∧ a.lastChangeMs = b.lastChangeMs ∧
    a.pressedEdge = b.pressedEdge ∧ a.millis_buf = b.millis_buf ∧
    a.nextMouseMs = b.nextMouseMs ∧ sentTexts a.out = sentTexts b.out

/-- The pass `i` run from `s` leaves the button alone and does not reach the
deadline: PIN_BTN reads the stored raw level, the stable level is that level
or the debounce window is still open, no edge is pending, and the deadline
test of line 203 fails. -/
def PassQuiet (i : TickInput) (s : State) : Prop :=
  i.btnPin = s.lastRaw ∧
  (s.stable = s.lastRaw ∨ sub32 i.tButton s.lastChangeMs < DEBOUNCE_MS) ∧
  s.pressedEdge = false ∧
  ¬ 0 ≤ toInt32 (sub32 i.tNow s.nextMouseMs)

/-! ## The scenarios of the specification -/

/-- A pass of `loop` at the time `t`, every read of `millis()` returning `t`,
with the button released, the transport connected and the disable input not
asserted. -/
def mouseTick (t : Nat) : TickInput := TickInput.uniform t true true true

theorem sub32_mod_right (a b : Nat) : sub32 a (b % U32) = sub32 a b := by
  simp [sub32]

theorem sub32_mod_left (a b : Nat) : sub32 (a % U32) b = sub32 a b := by
  simp [sub32]

theorem sub32_le_sub (a b : Nat) (h : b ≤ a) : sub32 a b ≤ a - b := by
  unfold sub32 U32
  omega

theorem sub32_self (a : Nat) : sub32 a a = 0 := by
  unfold sub32
  have h : a % U32 < U32 := Nat.mod_lt _ (by decide)
  have : a % U32 + (U32 - a % U32) = U32 := by omega
  rw [this]; simp

/-! ## The debouncer -/

theorem updateButton_lastRaw (p : Bool) (t : Nat) (s : State) :
    (updateButton p t s).lastRaw = p := by
  unfold updateButton
  cases p <;> cases h : s.lastRaw <;> simp [h] <;> split_ifs <;> simp [h]

theorem updateButton_lastChangeMs (p : Bool) (t : Nat) (s : State) :
    (updateButton p t s).lastChangeMs = if p = s.lastRaw then s.lastChangeMs else t % U32 := by
  unfold updateButton
  cases p <;> cases h : s.lastRaw <;> simp [h] <;> split_ifs <;> simp [h]

theorem runButton_snoc (s : State) (xs : List (Bool × Nat)) (x : Bool × Nat) :
    runButton s (xs ++ [x]) = updateButton x.1 x.2 (runButton s xs) := by
  simp [runButton, List.foldl_append]

theorem rawBefore_snoc (s0 : State) (xs : List (Bool × Nat)) (x : Bool × Nat) :
    rawBefore s0 (xs ++ [x]) = x.1 := by
  simp [rawBefore]

/-- After a run, `lastRaw` is the level observed last. -/
theorem runButton_lastRaw (s0 : State) (xs : List (Bool × Nat)) :
    (runButton s0 xs).lastRaw = rawBefore s0 xs := by
  induction xs using List.reverseRecOn with
  | nil => simp [runButton, rawBefore]
  | append_singleton xs x _ =>
    rw [runButton_snoc, updateButton_lastRaw, rawBefore_snoc]

/-- After a run, `lastChangeMs` is the time of the most recent raw flip of the
run, or the initial stamp when the run has no flip. -/
theorem runButton_stamp (s0 : State) (xs : List (Bool × Nat)) :
    (∃ pre r t post, xs = pre ++ (r, t) :: post ∧ r ≠ rawBefore s0 pre ∧
        (∀ x ∈ post, x.1 = r) ∧ (runButton s0 xs).lastRaw = r ∧
        (runButton s0 xs).lastChangeMs = t % U32) ∨
    ((∀ x ∈ xs, x.1 = s0.lastRaw) ∧ (runButton s0 xs).lastRaw = s0.lastRaw ∧
        (runButton s0 xs).lastChangeMs = s0.lastChangeMs) := by
  induction xs using List.reverseRecOn with
  | nil => right; simp [runButton]
  | append_singleton xs x ih =>
    obtain ⟨p, t⟩ := x
    rw [runButton_snoc]
    simp only [updateButton_lastRaw, updateButton_lastChangeMs]
    by_cases hp : p = (runButton s0 xs).lastRaw
    · rw [if_pos hp]
      rcases ih with ⟨pre, r, t0, post, hxs, hr, hpost, hlr, hst⟩ | ⟨hall, hlr, hst⟩
      · left
        refine ⟨pre, r, t0, post ++ [(p, t)], by simp [hxs], hr, ?_, by rw [hp, hlr], hst⟩
        intro x hx
        rcases List.mem_append.1 hx with h | h
        · exact hpost x h
        · simp at h; rw [h]; simp [hp, hlr]
      · right
        refine ⟨?_, by rw [hp, hlr], hst⟩
        intro x hx
        rcases List.mem_append.1 hx with h | h
        · exact hall x h
        · simp at h; rw [h]; simp [hp, hlr]
    · rw [if_neg hp]
      left
      refine ⟨xs, p, t, [], rfl, ?_, by simp, rfl, rfl⟩
      rw [← runButton_lastRaw]; exact hp

/-- One call: the stable level goes from released to pressed only if the
sample is at the stored raw level, that level is pressed, and the stamp is
40 ms old or more. -/
theorem updateButton_press (p : Bool) (t : Nat) (s : State)
    (h1 : s.stable = true) (h2 : (updateButton p t s).stable = false) :
    p = false ∧ s.lastRaw = false ∧ DEBOUNCE_MS ≤ sub32 t s.lastChangeMs := by
  unfold updateButton at h2
  cases p <;> cases h : s.lastRaw <;> simp [h, h1, sub32_mod_right, sub32_self, DEBOUNCE_MS] at h2 ⊢
  · by_contra hc
    simp [DEBOUNCE_MS, hc, h1] at h2

/-- One call: `pressedEdge` is never cleared, and is set exactly when the
stable level goes from released to pressed. -/
theorem updateButton_pressedEdge (p : Bool) (t : Nat) (s : State) :
    (updateButton p t s).pressedEdge =
      (s.pressedEdge || (s.stable && !(updateButton p t s).stable)) := by
  unfold updateButton
  cases p <;> cases h : s.lastRaw <;> cases h' : s.stable <;> simp [h, h'] <;>
    split_ifs <;> simp [h, h']

/-- C1: for every sample list `xs` fed to `updateButton` from any state `s0`
and every further sample `(pin, now)`: the call never clears `pressedEdge`
and sets it exactly when, in that call, the stable level goes from released
(`true`) to pressed (`false`); and when the stable level goes from released to
pressed, the sample reads pressed and the sample list has no raw flip in the
40 ms before `now` (its most recent flip, or the initial stamp when it has no
flip, is 40 ms old or more, differences taken on the 32-bit counter). -/
theorem debounce_edge_iff_quiet_press (s0 : State) (xs : List (Bool × Nat))
    (pin : Bool) (now : Nat) :
    ((updateButton pin now (runButton s0 xs)).pressedEdge =
        ((runButton s0 xs).pressedEdge ||
          ((runButton s0 xs).stable && !(updateButton pin now (runButton s0 xs)).stable))) ∧
    ((runButton s0 xs).pressedEdge = false →
        ((updateButton pin now (runButton s0 xs)).pressedEdge = true ↔
          ((runButton s0 xs).stable = true ∧
            (updateButton pin now (runButton s0 xs)).stable = false))) ∧
    ((runButton s0 xs).stable = true →
        (updateButton pin now (runButton s0 xs)).stable = false →
        pin = false ∧ QuietWindow s0 (xs ++ [(pin, now)]) now) := by
  refine ⟨updateButton_pressedEdge _ _ _, ?_, ?_⟩
  · intro h
    rw [updateButton_pressedEdge, h]
    simp
  · intro h1 h2
    obtain ⟨hp, hlr, hd⟩ := updateButton_press pin now _ h1 h2
    refine ⟨hp, ?_⟩
    rcases runButton_stamp s0 xs with ⟨pre, r, t0, post, hxs, hr, hpost, hlr', hst⟩ | ⟨hall, hlr', hst⟩
    · left
      refine ⟨pre, r, t0, post ++ [(pin, now)], by simp [hxs], hr, ?_, by simp, ?_⟩
      · intro x hx
        rcases List.mem_append.1 hx with h | h
        · exact hpost x h
        · simp at h; rw [h]; simp [hp, ← hlr', hlr]
      · rw [hst, sub32_mod_right] at hd
        exact ⟨hd, fun hle => le_trans hd (sub32_le_sub now t0 hle)⟩
    · right
      rw [hst] at hd
      refine ⟨?_, hd, fun hle => le_trans hd (sub32_le_sub now _ hle)⟩
      intro x hx
      rcases List.mem_append.1 hx with h | h
      · exact hall x h
      · simp at h; rw [h]; simp [hp, ← hlr', hlr]

/-- C1 at a concrete run: from boot, pressed at 0 and still pressed at 40. -/
theorem debounce_edge_iff_quiet_press_witness :
    (updateButton false 40 (runButton State.boot [(false, 0)])).pressedEdge = true ∧
    QuietWindow State.boot ([(false, 0)] ++ [(false, 40)]) 40 :=
  ⟨((debounce_edge_iff_quiet_press State.boot [(false, 0)] false 40).2.1 (by decide)).2
      ⟨by decide, by decide⟩,
   ((debounce_edge_iff_quiet_press State.boot [(false, 0)] false 40).2.2
      (by decide) (by decide)).2⟩

/-! ## Frame lemmas: what each part of `loop` leaves alone -/

theorem updateButton_frame (p : Bool) (t : Nat) (s : State) :
    updateButton p t s =
      { s with lastRaw := (updateButton p t s).lastRaw,
               lastChangeMs := (updateButton p t s).lastChangeMs,
               stable := (updateButton p t s).stable,
               pressedEdge := (updateButton p t s).pressedEdge } := by
  unfold updateButton
  cases s
  simp only []
  split_ifs <;> rfl

theorem updateButton_out (p : Bool) (t : Nat) (s : State) :
    (updateButton p t s).out = s.out := by
  rw [updateButton_frame]

theorem updateButton_millis_buf (p : Bool) (t : Nat) (s : State) :
    (updateButton p t s).millis_buf = s.millis_buf := by
  rw [updateButton_frame]

theorem loopMouse_frame (i : TickInput) (s : State) :
    loopMouse i s =
      { s with nextMouseMs := (loopMouse i s).nextMouseMs,
               jiggle := (loopMouse i s).jiggle,
               jiggleMs := (loopMouse i s).jiggleMs,
               ledOverride := (loopMouse i s).ledOverride,
               ledColor := (loopMouse i s).ledColor,
               ledUntil := (loopMouse i s).ledUntil } := by
  unfold loopMouse startMouseJiggle setLedEvent
  simp only []
  split_ifs <;> rfl

theorem updateMouseJiggle_frame (c p : Bool) (t : Nat) (s : State) :
    updateMouseJiggle c p t s =
      { s with jiggle := (updateMouseJiggle c p t s).jiggle,
               jiggleMs := (updateMouseJiggle c p t s).jiggleMs,
               out := (updateMouseJiggle c p t s).out } := by
  unfold updateMouseJiggle
  simp only []
  split_ifs <;> first | rfl | (cases h : s.jiggle <;> simp_all)

theorem updateMouseJiggle_sentTexts (c p : Bool) (t : Nat) (s : State) :
    sentTexts (updateMouseJiggle c p t s).out = sentTexts s.out := by
  unfold updateMouseJiggle
  simp only []
  split_ifs <;> first | rfl | (cases h : s.jiggle <;> simp_all [sentTexts, List.filterMap_append])

theorem updateLed_frame (f : CHSV → CRGB) (t g : Nat) (s : State) :
    updateLed f t g s =
      { s with leds := (updateLed f t g s).leds,
               ledOverride := (updateLed f t g s).ledOverride,
               out := (updateLed f t g s).out } := by
  unfold updateLed showSolid renderIdleGradient
  simp only []
  split_ifs <;> simp_all

theorem updateLed_sentTexts (f : CHSV → CRGB) (t g : Nat) (s : State) :
    sentTexts (updateLed f t g s).out = sentTexts s.out := by
  unfold updateLed showSolid renderIdleGradient
  simp only []
  split_ifs <;> simp [sentTexts, List.filterMap_append]

/-- The parts of `loop` after the keyboard trigger send no text and leave
`millis_buf` and `pressedEdge` alone. -/
theorem loop_after_keyboard (f : CHSV → CRGB) (i : TickInput) (s : State) :
    sentTexts (loop f i s).out = sentTexts (loopKeyboard i (updateButton i.btnPin i.tButton s)).out ∧
    (loop f i s).millis_buf = (loopKeyboard i (updateButton i.btnPin i.tButton s)).millis_buf ∧
    (loop f i s).pressedEdge = (loopKeyboard i (updateButton i.btnPin i.tButton s)).pressedEdge := by
  unfold loop
  simp only []
  refine ⟨?_, ?_, ?_⟩
  · rw [updateLed_sentTexts, updateMouseJiggle_sentTexts, loopMouse_frame]
  · rw [updateLed_frame, updateMouseJiggle_frame, loopMouse_frame]
  · rw [updateLed_frame, updateMouseJiggle_frame, loopMouse_frame]

/-! ## The keyboard trigger -/

theorem loopKeyboard_drop (i : TickInput) (s : State) (hedge : s.pressedEdge = true)
    (hcool : ¬ 1000 < sub32 i.tCooldown s.millis_buf) :
    loopKeyboard i s = { s with pressedEdge := false } := by
  unfold loopKeyboard
  simp only [hedge, if_true]
  rw [if_neg (by simpa using hcool)]

theorem loopKeyboard_pass (i : TickInput) (s : State) (hedge : s.pressedEdge = true)
    (hcool : 1000 < sub32 i.tCooldown s.millis_buf) :
    loopKeyboard i s =
      { doKeyboardAction i.kbConnected i.tKbLed { s with pressedEdge := false } with
        millis_buf := i.tKbStamp % U32 } := by
  unfold loopKeyboard
  simp only [hedge, if_true]
  rw [if_pos (by simpa using hcool)]

/-- C2: in a pass of `loop` in which a press edge is pending after
`updateButton` and the time elapsed since `millis_buf` is below 1000 ms, the
keyboard trigger (lines 194-200) changes nothing but `pressedEdge`, which it
clears: no text is sent, the overlay fields and `millis_buf` keep their
values; and at the end of the pass no text has been sent, `millis_buf` is
unchanged and `pressedEdge` is false. -/
theorem cooldown_press_dropped (f : CHSV → CRGB) (i : TickInput) (s : State)
    (hedge : (updateButton i.btnPin i.tButton s).pressedEdge = true)
    (hcool : sub32 i.tCooldown s.millis_buf < 1000) :
    loopKeyboard i (updateButton i.btnPin i.tButton s) =
        { updateButton i.btnPin i.tButton s with pressedEdge := false } ∧
    sentTexts (loop f i s).out = sentTexts s.out ∧
    (loop f i s).millis_buf = s.millis_buf ∧
    (loop f i s).pressedEdge = false := by
  have hk := loopKeyboard_drop i (updateButton i.btnPin i.tButton s) hedge
    (by rw [updateButton_millis_buf]; omega)
  obtain ⟨h1, h2, h3⟩ := loop_after_keyboard f i s
  refine ⟨hk, ?_, ?_, ?_⟩
  · rw [h1, hk]; simp [updateButton_out]
  · rw [h2, hk]; simp [updateButton_millis_buf]
  · rw [h3, hk]

/-- C2 at a concrete pass: booted at 0, pressed from 900 on, pass at 940. -/
theorem cooldown_press_dropped_witness :
    sentTexts (loop hsvCopy (TickInput.uniform 940 false true true)
        (loop hsvCopy (TickInput.uniform 900 false true true) (setup 0 State.boot))).out =
      sentTexts (loop hsvCopy (TickInput.uniform 900 false true true) (setup 0 State.boot)).out ∧
    (loop hsvCopy (TickInput.uniform 940 false true true)
        (loop hsvCopy (TickInput.uniform 900 false true true) (setup 0 State.boot))).pressedEdge
      = false :=
  ⟨(cooldown_press_dropped hsvCopy (TickInput.uniform 940 false true true)
      (loop hsvCopy (TickInput.uniform 900 false true true) (setup 0 State.boot))
      (by decide) (by decide)).2.1,
   (cooldown_press_dropped hsvCopy (TickInput.uniform 940 false true true)
      (loop hsvCopy (TickInput.uniform 900 false true true) (setup 0 State.boot))
      (by decide) (by decide)).2.2.2⟩

/-- C3, as stated, fails when the elapsed time is exactly 1000 ms: booted at
0, the button pressed from 960 on and the transport connected, the pass at
1000 has a pending press edge and an elapsed time of 1000 ms, and sends no
text, leaves `millis_buf` alone and requests no overlay. -/
theorem cooldown_boundary_no_send :
    (updateButton false 1000
        (loop hsvCopy (TickInput.uniform 960 false true true) (setup 0 State.boot))).pressedEdge
      = true ∧
    sub32 1000
        (loop hsvCopy (TickInput.uniform 960 false true true) (setup 0 State.boot)).millis_buf
      = 1000 ∧
    (TickInput.uniform 1000 false true true).kbConnected = true ∧
    sentTexts (loop hsvCopy (TickInput.uniform 1000 false true true)
        (loop hsvCopy (TickInput.uniform 960 false true true) (setup 0 State.boot))).out = [] ∧
    (loop hsvCopy (TickInput.uniform 1000 false true true)
        (loop hsvCopy (TickInput.uniform 960 false true true) (setup 0 State.boot))).millis_buf
      = 0 ∧
    (loop hsvCopy (TickInput.uniform 1000 false true true)
        (loop hsvCopy (TickInput.uniform 960 false true true) (setup 0 State.boot))).ledOverride
      = false := by
  decide

/-- C3 (amended): in a pass of `loop` in which a press edge is pending after
`updateButton`, the time elapsed since `millis_buf` is more than 1000 ms and
the transport reports connected, the keyboard trigger (lines 194-200) clears
the edge, sends the text payload once, requests the red overlay until the
current time plus `LED_EVENT_MS` and sets `millis_buf` to the current time;
at the end of the pass exactly one text, the payload, has been sent and
`millis_buf` is the time read at line 198. -/
theorem press_after_cooldown_sends (f : CHSV → CRGB) (i : TickInput) (s : State)
    (hedge : (updateButton i.btnPin i.tButton s).pressedEdge = true)
    (hcool : 1000 < sub32 i.tCooldown s.millis_buf)
    (hconn : i.kbConnected = true) :
    loopKeyboard i (updateButton i.btnPin i.tButton s) =
        { updateButton i.btnPin i.tButton s with
          pressedEdge := false
          ledOverride := true
          ledColor := CRGB.Red
          ledUntil := add32 i.tKbLed LED_EVENT_MS
          out := s.out ++ [Event.print TEXT_TO_TYPE]
          millis_buf := i.tKbStamp % U32 } ∧
    sentTexts (loop f i s).out = sentTexts s.out ++ [TEXT_TO_TYPE] ∧
    (loop f i s).millis_buf = i.tKbStamp % U32 := by
  have hk := loopKeyboard_pass i (updateButton i.btnPin i.tButton s) hedge
    (by rw [updateButton_millis_buf]; exact hcool)
  have hk' : loopKeyboard i (updateButton i.btnPin i.tButton s) =
        { updateButton i.btnPin i.tButton s with
          pressedEdge := false
          ledOverride := true
          ledColor := CRGB.Red
          ledUntil := add32 i.tKbLed LED_EVENT_MS
          out := s.out ++ [Event.print TEXT_TO_TYPE]
          millis_buf := i.tKbStamp % U32 } := by
    rw [hk]
    simp [doKeyboardAction, setLedEvent, hconn, updateButton_out]
  obtain ⟨h1, h2, _⟩ := loop_after_keyboard f i s
  refine ⟨hk', ?_, ?_⟩
  · rw [h1, hk']; simp [sentTexts, List.filterMap_append]
  · rw [h2, hk']

/-- C3 (amended) at a concrete pass: booted at 0, pressed from 961 on, pass at
1001. -/
theorem press_after_cooldown_sends_witness :
    sentTexts (loop hsvCopy (TickInput.uniform 1001 false true true)
        (loop hsvCopy (TickInput.uniform 961 false true true) (setup 0 State.boot))).out =
      sentTexts (loop hsvCopy (TickInput.uniform 961 false true true) (setup 0 State.boot)).out
        ++ [TEXT_TO_TYPE] ∧
    (loop hsvCopy (TickInput.uniform 1001 false true true)
        (loop hsvCopy (TickInput.uniform 961 false true true) (setup 0 State.boot))).millis_buf
      = (TickInput.uniform 1001 false true true).tKbStamp % U32 :=
  (press_after_cooldown_sends hsvCopy (TickInput.uniform 1001 false true true)
      (loop hsvCopy (TickInput.uniform 961 false true true) (setup 0 State.boot))
      (by decide) (by decide) (by decide)).2

set_option maxRecDepth 100000 in
/-- C4, as stated, fails when the elapsed time is more than 1000 ms.  Booted
at 0 with the transport connected, a press debounced at 1041 is sent and
stamps `millis_buf` with 1041.  With the transport not connected, the press
debounced at 3040 has a pending edge and sets `millis_buf` to 3040.  With the
transport connected again, the press debounced at 3540, less than 1000 ms
after the disconnected press and more than 1000 ms after the send of 1041,
has a pending edge and sends nothing: the only text sent is the first one. -/
theorem disconnected_press_starts_cooldown :
    (runLoop hsvCopy (setup 0 State.boot)
        [TickInput.uniform 1001 false true true,
         TickInput.uniform 1041 false true true,
         TickInput.uniform 1100 true true true,
         TickInput.uniform 1140 true true true,
         TickInput.uniform 3000 false false true]).millis_buf = 1041 ∧
    (updateButton false 3040
        (runLoop hsvCopy (setup 0 State.boot)
          [TickInput.uniform 1001 false true true,
           TickInput.uniform 1041 false true true,
           TickInput.uniform 1100 true true true,
           TickInput.uniform 1140 true true true,
           TickInput.uniform 3000 false false true])).pressedEdge = true ∧
    (TickInput.uniform 3040 false false true).kbConnected = false ∧
    (runLoop hsvCopy (setup 0 State.boot)
        [TickInput.uniform 1001 false true true,
         TickInput.uniform 1041 false true true,
         TickInput.uniform 1100 true true true,
         TickInput.uniform 1140 true true true,
         TickInput.uniform 3000 false false true,
         TickInput.uniform 3040 false false true]).millis_buf = 3040 ∧
    (updateButton false 3540
        (runLoop hsvCopy (setup 0 State.boot)
          [TickInput.uniform 1001 false true true,
           TickInput.uniform 1041 false true true,
           TickInput.uniform 1100 true true true,
           TickInput.uniform 1140 true true true,
           TickInput.uniform 3000 false false true,
           TickInput.uniform 3040 false false true,
           TickInput.uniform 3100 true true true,
           TickInput.uniform 3140 true true true,
           TickInput.uniform 3500 false true true])).pressedEdge = true ∧
    sentTexts (runLoop hsvCopy (setup 0 State.boot)
        [TickInput.uniform 1001 false true true,
         TickInput.uniform 1041 false true true,
         TickInput.uniform 1100 true true true,
         TickInput.uniform 1140 true true true,
         TickInput.uniform 3000 false false true,
         TickInput.uniform 3040 false false true,
         TickInput.uniform 3100 true true true,
         TickInput.uniform 3140 true true true,
         TickInput.uniform 3500 false true true,
         TickInput.uniform 3540 false true true]).out = [TEXT_TO_TYPE] := by
  decide

/-- C4 (amended): in a pass of `loop` in which a press edge is pending after
`updateButton` and the transport reports not connected, the keyboard trigger
(lines 194-200) sends no text and requests no overlay: it clears the edge and
changes nothing else but `millis_buf`, which keeps its value when the elapsed
time is at most 1000 ms and is set to the current time when the elapsed time
is more than 1000 ms.  So a disconnected press made after the cooldown does
start a new cooldown window: in any later pass `j`, from a state `s2` whose
`millis_buf` is the one this pass left, a pending press edge at most 1000 ms
after that stamp sends no text, whatever the transport reports. -/
theorem disconnected_press_no_send (f : CHSV → CRGB) (i : TickInput) (s : State)
    (hedge : (updateButton i.btnPin i.tButton s).pressedEdge = true)
    (hconn : i.kbConnected = false) :
    loopKeyboard i (updateButton i.btnPin i.tButton s) =
        { updateButton i.btnPin i.tButton s with
          pressedEdge := false
          millis_buf := if 1000 < sub32 i.tCooldown s.millis_buf then i.tKbStamp % U32
                        else s.millis_buf } ∧
    sentTexts (loop f i s).out = sentTexts s.out ∧
    (loop f i s).millis_buf =
        (if 1000 < sub32 i.tCooldown s.millis_buf then i.tKbStamp % U32 else s.millis_buf) ∧
    (∀ (j : TickInput) (s2 : State),
        s2.millis_buf = (loop f i s).millis_buf →
        1000 < sub32 i.tCooldown s.millis_buf →
        (updateButton j.btnPin j.tButton s2).pressedEdge = true →
        sub32 j.tCooldown i.tKbStamp ≤ 1000 →
        sentTexts (loop f j s2).out = sentTexts s2.out ∧
        (loop f j s2).millis_buf = i.tKbStamp % U32) := by
  have hk : loopKeyboard i (updateButton i.btnPin i.tButton s) =
        { updateButton i.btnPin i.tButton s with
          pressedEdge := false
          millis_buf := if 1000 < sub32 i.tCooldown s.millis_buf then i.tKbStamp % U32
                        else s.millis_buf } := by
    by_cases hc : 1000 < sub32 i.tCooldown s.millis_buf
    · rw [loopKeyboard_pass i _ hedge (by rw [updateButton_millis_buf]; exact hc)]
      simp [doKeyboardAction, hconn, hc]
    · rw [loopKeyboard_drop i _ hedge (by rw [updateButton_millis_buf]; exact hc)]
      simp [hc, updateButton_millis_buf]
  obtain ⟨h1, h2, _⟩ := loop_after_keyboard f i s
  have hm : (loop f i s).millis_buf =
      (if 1000 < sub32 i.tCooldown s.millis_buf then i.tKbStamp % U32 else s.millis_buf) := by
    rw [h2, hk]
  refine ⟨hk, ?_, hm, ?_⟩
  · rw [h1, hk]; simp [updateButton_out]
  · intro j s2 hs2 hc hedge2 hcool2
    rw [hm, if_pos hc] at hs2
    have hk2 := loopKeyboard_drop j (updateButton j.btnPin j.tButton s2) hedge2
      (by rw [updateButton_millis_buf, hs2, sub32_mod_right]; omega)
    obtain ⟨g1, g2, _⟩ := loop_after_keyboard f j s2
    refine ⟨?_, ?_⟩
    · rw [g1, hk2]; simp [updateButton_out]
    · rw [g2, hk2]; simp [updateButton_millis_buf, hs2]

/-- C4 (amended) at a concrete pass: booted at 0, transport not connected,
pressed from 1960 on, pass at 2001. -/
theorem disconnected_press_no_send_witness :
    sentTexts (loop hsvCopy (TickInput.uniform 2001 false false true)
        (loop hsvCopy (TickInput.uniform 1960 false false true) (setup 0 State.boot))).out =
      sentTexts (loop hsvCopy (TickInput.uniform 1960 false false true)
        (setup 0 State.boot)).out :=
  (disconnected_press_no_send hsvCopy (TickInput.uniform 2001 false false true)
      (loop hsvCopy (TickInput.uniform 1960 false false true) (setup 0 State.boot))
      (by decide) (by decide)).2.1

/-! ## The jiggle sequence -/

/-- One call of `updateMouseJiggle` does one of three things: nothing; an
abandon (the state is not Idle and the transport is not connected or the
disable input is asserted); or a step, 25 ms or more after the stamp. -/
theorem updateMouseJiggle_cases (c p : Bool) (t : Nat) (s : State) :
    updateMouseJiggle c p t s = s ∨
    (s.jiggle ≠ JiggleState.Idle ∧ (c = false ∨ mouseDisabled p = true) ∧
      updateMouseJiggle c p t s = { s with jiggle := JiggleState.Idle }) ∨
    (s.jiggle ≠ JiggleState.Idle ∧ c = true ∧ mouseDisabled p = false ∧
      25 ≤ sub32 t s.jiggleMs ∧
      (updateMouseJiggle c p t s).jiggleMs = t % U32 ∧
      cycleIndex (updateMouseJiggle c p t s).jiggle = cycleIndex s.jiggle + 1 ∧
      (updateMouseJiggle c p t s).out =
        s.out ++ ((jiggleMoves.drop (cycleIndex s.jiggle)).take 1).map
          (fun m => Event.move m.1 m.2)) := by
  unfold updateMouseJiggle
  by_cases h0 : s.jiggle = JiggleState.Idle
  · left; simp [h0]
  · rw [if_neg h0]
    cases c
    · right; left; simp [h0]
    · cases hp : mouseDisabled p
      · by_cases ht : sub32 t s.jiggleMs < 25
        · left; simp [ht]
        · right; right
          simp only [Bool.not_true, if_false, ht, Bool.false_eq_true]
          refine ⟨h0, trivial, trivial, by omega, ?_⟩
          cases hj : s.jiggle <;>
            simp_all [cycleIndex, jiggleMoves, MOUSE_STEP]
      · right; left; simp [h0]

/-- A call on an Idle state changes nothing. -/
theorem updateMouseJiggle_idle (c p : Bool) (t : Nat) (s : State)
    (h : s.jiggle = JiggleState.Idle) : updateMouseJiggle c p t s = s := by
  unfold updateMouseJiggle; simp [h]

theorem runJiggle_cons (s : State) (c : Bool × Bool × Nat) (cs : List (Bool × Bool × Nat)) :
    runJiggle s (c :: cs) = runJiggle (updateMouseJiggle c.1 c.2.1 c.2.2 s) cs := rfl

theorem runJiggle_append (s : State) (cs ds : List (Bool × Bool × Nat)) :
    runJiggle s (cs ++ ds) = runJiggle (runJiggle s cs) ds := by
  simp [runJiggle, List.foldl_append]

/-- Idle is kept by any run of `updateMouseJiggle`. -/
theorem runJiggle_idle (cs : List (Bool × Bool × Nat)) (s : State)
    (h : s.jiggle = JiggleState.Idle) : runJiggle s cs = s := by
  induction cs generalizing s with
  | nil => rfl
  | cons c cs ih => rw [runJiggle_cons, updateMouseJiggle_idle _ _ _ _ h]; exact ih s h

theorem cycleIndex_le (j : JiggleState) : cycleIndex j ≤ 4 := by
  cases j <;> simp [cycleIndex]

theorem cycleIndex_inj (a b : JiggleState) (h : cycleIndex a = cycleIndex b) : a = b := by
  cases a <;> cases b <;> simp_all [cycleIndex]

theorem cycleIndex_idle (j : JiggleState) : cycleIndex j = 4 ↔ j = JiggleState.Idle := by
  cases j <;> simp [cycleIndex]

theorem moves_append (a b : List Event) : moves (a ++ b) = moves a ++ moves b := by
  simp [moves, List.filterMap_append]

theorem moves_map_move (ms : List (Int × Int)) :
    moves (ms.map (fun m => Event.move m.1 m.2)) = ms := by
  induction ms with
  | nil => rfl
  | cons m ms ih =>
    simp only [List.map_cons, moves, List.filterMap_cons] at ih ⊢
    rw [ih]

/-- With the transport connected and the disable input not asserted at every
call, a run emits the moves of the specification between the position of its
first state and the position of its last state, and never goes back. -/
theorem runJiggle_enabled_moves (cs : List (Bool × Bool × Nat)) (s : State)
    (hen : ∀ c ∈ cs, c.1 = true ∧ mouseDisabled c.2.1 = false) :
    cycleIndex s.jiggle ≤ cycleIndex (runJiggle s cs).jiggle ∧
    moves (runJiggle s cs).out = moves s.out ++
      (jiggleMoves.drop (cycleIndex s.jiggle)).take
        (cycleIndex (runJiggle s cs).jiggle - cycleIndex s.jiggle) := by
  induction cs generalizing s with
  | nil => simp [runJiggle]
  | cons c cs ih =>
    have hc := hen c (List.mem_cons_self _ _)
    have ih' := ih (updateMouseJiggle c.1 c.2.1 c.2.2 s)
      (fun d hd => hen d (List.mem_cons_of_mem _ hd))
    rw [runJiggle_cons]
    rcases updateMouseJiggle_cases c.1 c.2.1 c.2.2 s with h | ⟨_, h, _⟩ | ⟨h0, _, _, _, _, hidx, hout⟩
    · rw [h] at ih' ⊢; exact ih'
    · rcases h with h | h
      · rw [hc.1] at h; cases h
      · rw [hc.2] at h; cases h
    · obtain ⟨hle, hm⟩ := ih'
      refine ⟨by omega, ?_⟩
      rw [hm, hout, moves_append, moves_map_move, hidx, List.append_assoc]
      congr 1
      have h4 := cycleIndex_le (runJiggle (updateMouseJiggle c.1 c.2.1 c.2.2 s) cs).jiggle
      rw [hidx] at hle
      generalize cycleIndex (runJiggle (updateMouseJiggle c.1 c.2.1 c.2.2 s) cs).jiggle = n at *
      generalize cycleIndex s.jiggle = m at *
      have hm4 : m < 4 := by omega
      interval_cases m <;> interval_cases n <;> simp [jiggleMoves] at * 

theorem updateMouseJiggle_wait (c p : Bool) (t : Nat) (s : State)
    (hc : c = true) (hp : mouseDisabled p = false) (ht : sub32 t s.jiggleMs < 25) :
    updateMouseJiggle c p t s = s := by
  unfold updateMouseJiggle
  simp [hc, hp, ht]

/-- With the transport connected and the disable input not asserted at every
call, the states of a run, repetitions dropped, are the states of the
specification from its first state to its last state. -/
theorem jiggleTrace_enabled (cs : List (Bool × Bool × Nat)) (s : State)
    (hen : ∀ c ∈ cs, c.1 = true ∧ mouseDisabled c.2.1 = false) :
    (jiggleTrace s cs).destutter (· ≠ ·) =
      (jiggleCycle.drop (cycleIndex s.jiggle)).take
        (cycleIndex (runJiggle s cs).jiggle - cycleIndex s.jiggle + 1) := by
  induction cs generalizing s with
  | nil =>
    simp only [jiggleTrace, runJiggle, List.foldl_nil, List.destutter_singleton]
    cases s.jiggle <;> simp [cycleIndex, jiggleCycle]
  | cons c cs ih =>
    have hc := hen c (List.mem_cons_self _ _)
    have hrest : ∀ d ∈ cs, d.1 = true ∧ mouseDisabled d.2.1 = false :=
      fun d hd => hen d (List.mem_cons_of_mem _ hd)
    have ih' := ih (updateMouseJiggle c.1 c.2.1 c.2.2 s) hrest
    have hmono := (runJiggle_enabled_moves cs (updateMouseJiggle c.1 c.2.1 c.2.2 s) hrest).1
    have hhead : ∀ (s1 : State) (ds : List (Bool × Bool × Nat)),
        jiggleTrace s1 ds = s1.jiggle :: (jiggleTrace s1 ds).tail := by
      intro s1 ds; cases ds <;> rfl
    rw [runJiggle_cons]
    simp only [jiggleTrace]
    rw [hhead (updateMouseJiggle c.1 c.2.1 c.2.2 s) cs, List.destutter_cons_cons]
    rw [hhead (updateMouseJiggle c.1 c.2.1 c.2.2 s) cs] at ih'
    rcases updateMouseJiggle_cases c.1 c.2.1 c.2.2 s with h | ⟨_, h, _⟩ | ⟨h0, _, _, _, _, hidx, _⟩
    · rw [h] at ih' ⊢
      rw [if_neg (by simp)]
      rw [List.destutter_cons'] at ih'
      exact ih'
    · rcases h with h | h
      · rw [hc.1] at h; cases h
      · rw [hc.2] at h; cases h
    · have hne : s.jiggle ≠ (updateMouseJiggle c.1 c.2.1 c.2.2 s).jiggle := by
        intro he; rw [← he] at hidx; omega
      rw [if_pos hne, ← List.destutter_cons', ih', hidx]
      have h4 := cycleIndex_le (runJiggle (updateMouseJiggle c.1 c.2.1 c.2.2 s) cs).jiggle
      rw [hidx] at hmono
      generalize cycleIndex (runJiggle (updateMouseJiggle c.1 c.2.1 c.2.2 s) cs).jiggle = n at *
      cases hj : s.jiggle <;> simp [hj, cycleIndex] at hmono hidx h0 ⊢ <;>
        interval_cases n <;> simp [jiggleCycle] at *

theorem sub32_trans (m p t : Nat) (h1 : sub32 p m < 25) (h2 : sub32 t p < 2147483648) :
    sub32 t m = sub32 p m + sub32 t p := by
  unfold sub32 U32 at *
  omega

/-- Liveness of the sequence: with the transport connected, the disable input
not asserted and the clock advancing between calls, each call lowers
`25 * (4 - position) - elapsed`, so the run ends in Idle. -/
theorem runJiggle_live_aux (cs : List (Bool × Bool × Nat)) (s : State) (p n : Nat)
    (hen : ∀ c ∈ cs, c.1 = true ∧ mouseDisabled c.2.1 = false)
    (hinv : s.jiggle ≠ JiggleState.Idle → sub32 p s.jiggleMs < 25)
    (hadv : List.Chain Advancing p (cs.map (fun c => c.2.2)))
    (hpot : 25 * (4 - cycleIndex s.jiggle) - sub32 p s.jiggleMs ≤ n)
    (hlen : n ≤ cs.length) :
    (runJiggle s cs).jiggle = JiggleState.Idle := by
  induction cs generalizing s p n with
  | nil =>
    by_contra h0
    have h1 := hinv h0
    have h2 : cycleIndex s.jiggle < 4 := by
      have := cycleIndex_le s.jiggle
      have := (cycleIndex_idle s.jiggle).not.2 h0
      omega
    simp at hlen
    omega
  | cons c cs ih =>
    by_cases h0 : s.jiggle = JiggleState.Idle
    · rw [runJiggle_idle _ _ h0]; exact h0
    · have hc := hen c (List.mem_cons_self _ _)
      have hrest : ∀ d ∈ cs, d.1 = true ∧ mouseDisabled d.2.1 = false :=
        fun d hd => hen d (List.mem_cons_of_mem _ hd)
      simp only [List.map_cons, List.chain_cons] at hadv
      obtain ⟨⟨hpos, hlt⟩, hchain⟩ := hadv
      have h1 := hinv h0
      have h2 : cycleIndex s.jiggle < 4 := by
        have := cycleIndex_le s.jiggle
        have := (cycleIndex_idle s.jiggle).not.2 h0
        omega
      have he := sub32_trans s.jiggleMs p c.2.2 h1 hlt
      simp only [List.length_cons] at hlen
      rw [runJiggle_cons]
      by_cases ht : sub32 c.2.2 s.jiggleMs < 25
      · rw [updateMouseJiggle_wait _ _ _ _ hc.1 hc.2 ht]
        exact ih s c.2.2 (n - 1) hrest (fun _ => ht) hchain (by omega) (by omega)
      · rcases updateMouseJiggle_cases c.1 c.2.1 c.2.2 s with h | ⟨_, h, _⟩ | ⟨_, _, _, _, hms, hidx, _⟩
        · -- the call changed nothing although 25 ms have elapsed: impossible
          exfalso
          have := congrArg State.jiggleMs h
          unfold updateMouseJiggle at h
          simp [h0, hc.1, hc.2, ht] at h
          have hj := congrArg State.jiggle h
          cases hs : s.jiggle <;> simp [hs] at hj h0
        · rcases h with h | h
          · rw [hc.1] at h; cases h
          · rw [hc.2] at h; cases h
        · have hz : sub32 c.2.2 (updateMouseJiggle c.1 c.2.1 c.2.2 s).jiggleMs = 0 := by
            rw [hms, sub32_mod_right, sub32_self]
          exact ih _ c.2.2 (n - 1) hrest (fun _ => by rw [hz]; omega) hchain
            (by rw [hz, hidx]; omega) (by omega)

/-- C5: from a state with jiggle state Up, for every run of `updateMouseJiggle`
calls with the transport connected and the disable input not asserted at
every call: at every point of the run the moves emitted so far are the first
moves of Up (0,-10), Down (0,10), Left (-10,0), Right (10,0), as many as the
position of the current state in Up, Down, Left, Right, Idle, and the states
visited so far are Up, Down, Left, Right, Idle up to the current state, in
that order.  When moreover the clock advances between successive calls and
the run has 101 calls or more, the state does return to Idle: at the first
call `k` after which it is Idle, exactly the four moves have been emitted,
in that order, their component-wise sum is (0,0), the states visited are Up,
Down, Left, Right, Idle, and the rest of the run emits no further move. -/
theorem jiggle_full_sequence (s : State) (cs : List (Bool × Bool × Nat))
    (hUp : s.jiggle = JiggleState.Up)
    (hen : ∀ c ∈ cs, c.1 = true ∧ mouseDisabled c.2.1 = false) :
    (∀ k, moves (runJiggle s (cs.take k)).out =
            moves s.out ++ ([(0, -10), (0, 10), (-10, 0), (10, 0)] : List (Int × Int)).take
              (cycleIndex (runJiggle s (cs.take k)).jiggle) ∧
          (jiggleTrace s (cs.take k)).destutter (· ≠ ·) =
            [JiggleState.Up, JiggleState.Down, JiggleState.Left, JiggleState.Right,
              JiggleState.Idle].take (cycleIndex (runJiggle s (cs.take k)).jiggle + 1)) ∧
    (List.Chain' Advancing (cs.map (fun c => c.2.2)) → 101 ≤ cs.length →
      ∃ k, k ≤ cs.length ∧
        (runJiggle s (cs.take k)).jiggle = JiggleState.Idle ∧
        (∀ j, j < k → (runJiggle s (cs.take j)).jiggle ≠ JiggleState.Idle) ∧
        moves (runJiggle s (cs.take k)).out =
          moves s.out ++ [(0, -10), (0, 10), (-10, 0), (10, 0)] ∧
        ((((moves (runJiggle s (cs.take k)).out).drop (moves s.out).length).map Prod.fst).sum,
         (((moves (runJiggle s (cs.take k)).out).drop (moves s.out).length).map Prod.snd).sum)
          = (0, 0) ∧
        (jiggleTrace s (cs.take k)).destutter (· ≠ ·) =
          [JiggleState.Up, JiggleState.Down, JiggleState.Left, JiggleState.Right,
            JiggleState.Idle] ∧
        moves (runJiggle s cs).out = moves (runJiggle s (cs.take k)).out) := by
  have hsafe : ∀ k, moves (runJiggle s (cs.take k)).out =
            moves s.out ++ ([(0, -10), (0, 10), (-10, 0), (10, 0)] : List (Int × Int)).take
              (cycleIndex (runJiggle s (cs.take k)).jiggle) ∧
          (jiggleTrace s (cs.take k)).destutter (· ≠ ·) =
            [JiggleState.Up, JiggleState.Down, JiggleState.Left, JiggleState.Right,
              JiggleState.Idle].take (cycleIndex (runJiggle s (cs.take k)).jiggle + 1) := by
    intro k
    have hk : ∀ c ∈ cs.take k, c.1 = true ∧ mouseDisabled c.2.1 = false :=
      fun c hc => hen c (List.mem_of_mem_take hc)
    have h1 := (runJiggle_enabled_moves (cs.take k) s hk).2
    have h2 := jiggleTrace_enabled (cs.take k) s hk
    rw [hUp] at h1 h2
    exact ⟨by simpa [cycleIndex, jiggleMoves] using h1, by simpa [cycleIndex, jiggleCycle] using h2⟩
  refine ⟨hsafe, ?_⟩
  intro hadv hlen
  -- the run ends in Idle
  have hfin : (runJiggle s cs).jiggle = JiggleState.Idle := by
    cases cs with
    | nil => simp at hlen
    | cons c rest =>
      have hc := hen c (List.mem_cons_self _ _)
      have hrest : ∀ d ∈ rest, d.1 = true ∧ mouseDisabled d.2.1 = false :=
        fun d hd => hen d (List.mem_cons_of_mem _ hd)
      simp only [List.map_cons, List.length_cons] at hadv hlen
      rw [runJiggle_cons]
      have hinv : (updateMouseJiggle c.1 c.2.1 c.2.2 s).jiggle ≠ JiggleState.Idle →
          sub32 c.2.2 (updateMouseJiggle c.1 c.2.1 c.2.2 s).jiggleMs < 25 := by
        intro _
        by_cases ht : sub32 c.2.2 s.jiggleMs < 25
        · rw [updateMouseJiggle_wait _ _ _ _ hc.1 hc.2 ht]; exact ht
        · rcases updateMouseJiggle_cases c.1 c.2.1 c.2.2 s with h | ⟨_, h, _⟩ | ⟨_, _, _, _, hms, _, _⟩
          · exfalso
            unfold updateMouseJiggle at h
            simp [hUp, hc.1, hc.2, ht] at h
            have hj := congrArg State.jiggle h
            simp [hUp] at hj
          · rcases h with h | h
            · rw [hc.1] at h; cases h
            · rw [hc.2] at h; cases h
          · rw [hms, sub32_mod_right, sub32_self]; omega
      exact runJiggle_live_aux rest _ c.2.2 100 hrest hinv hadv
        (by have := cycleIndex_le (updateMouseJiggle c.1 c.2.1 c.2.2 s).jiggle; omega) (by omega)
  have hex : ∃ k, (runJiggle s (cs.take k)).jiggle = JiggleState.Idle :=
    ⟨cs.length, by rw [List.take_length]; exact hfin⟩
  classical
  refine ⟨Nat.find hex, Nat.find_min' hex (by rw [List.take_length]; exact hfin),
    Nat.find_spec hex, fun j hj => Nat.find_min hex hj, ?_, ?_, ?_, ?_⟩
  · have := (hsafe (Nat.find hex)).1
    rw [Nat.find_spec hex] at this
    simpa [cycleIndex] using this
  · have := (hsafe (Nat.find hex)).1
    rw [Nat.find_spec hex] at this
    rw [this]
    simp [cycleIndex]
  · have := (hsafe (Nat.find hex)).2
    rw [Nat.find_spec hex] at this
    simpa [cycleIndex] using this
  · conv_lhs => rw [← List.take_append_drop (Nat.find hex) cs]
    rw [runJiggle_append, runJiggle_idle _ _ (Nat.find_spec hex)]

/-- C5 at a concrete run: armed at 0 from boot, then 101 calls, 5 ms apart. -/
theorem jiggle_full_sequence_witness :
    ∃ k, k ≤ ((List.range 101).map (fun n => (true, true, 5 * n))).length ∧
      (runJiggle (startMouseJiggle true true 0 0 State.boot)
        (((List.range 101).map (fun n => (true, true, 5 * n))).take k)).jiggle
          = JiggleState.Idle ∧
      moves (runJiggle (startMouseJiggle true true 0 0 State.boot)
        (((List.range 101).map (fun n => (true, true, 5 * n))).take k)).out =
          moves (startMouseJiggle true true 0 0 State.boot).out ++
            [(0, -10), (0, 10), (-10, 0), (10, 0)] := by
  obtain ⟨k, h1, h2, _, h4, _⟩ :=
    (jiggle_full_sequence (startMouseJiggle true true 0 0 State.boot)
      ((List.range 101).map (fun n => (true, true, 5 * n))) (by decide)
      (by
        intro c hc
        obtain ⟨n, _, rfl⟩ := List.mem_map.1 hc
        exact ⟨rfl, rfl⟩)).2
      (by
        rw [List.map_map, List.chain'_map, List.chain'_range_succ]
        intro m hm
        simp only [Function.comp, Advancing, sub32, U32]
        omega)
      (by simp)
  exact ⟨k, h1, h2, h4⟩

/-- From a state with jiggle state Up, whatever the calls of a run read, the
moves emitted are the first moves of the specification, and as many as the
position of the last state when that state is not Idle. -/
theorem runJiggle_moves_initial (cs : List (Bool × Bool × Nat)) (s0 s : State)
    (hinv : ∃ n, n ≤ 4 ∧ moves s.out = moves s0.out ++ jiggleMoves.take n ∧
      (s.jiggle ≠ JiggleState.Idle → n = cycleIndex s.jiggle)) :
    ∃ n, n ≤ 4 ∧ moves (runJiggle s cs).out = moves s0.out ++ jiggleMoves.take n ∧
      ((runJiggle s cs).jiggle ≠ JiggleState.Idle → n = cycleIndex (runJiggle s cs).jiggle) := by
  induction cs generalizing s with
  | nil => exact hinv
  | cons c cs ih =>
    rw [runJiggle_cons]
    apply ih
    obtain ⟨n, hn, hm, hj⟩ := hinv
    rcases updateMouseJiggle_cases c.1 c.2.1 c.2.2 s with h | ⟨_, _, h⟩ | ⟨h0, _, _, _, _, hidx, hout⟩
    · rw [h]; exact ⟨n, hn, hm, hj⟩
    · rw [h]; exact ⟨n, hn, hm, fun hne => absurd rfl hne⟩
    · have hn' := hj h0
      have h4 := cycleIndex_le (updateMouseJiggle c.1 c.2.1 c.2.2 s).jiggle
      refine ⟨n + 1, by omega, ?_, fun _ => by omega⟩
      rw [hout, moves_append, moves_map_move, hm, List.append_assoc, ← hn']
      congr 1
      have : n < 4 := by omega
      interval_cases n <;> simp [jiggleMoves]

/-- C6: a call of `updateMouseJiggle` on a state `s1` that is not Idle, with
the transport not connected or the disable input asserted, only sets the
jiggle state to Idle: no move is emitted and the step timestamp is unchanged,
whatever the time read.  Consequently, for a run of calls from a state `s`
with jiggle state Up (just armed) that leaves the state not Idle, followed by
such an interrupted call `c` and any further calls `rest`: the moves emitted
by the run are a proper initial segment of Up (0,-10), Down (0,10),
Left (-10,0), Right (10,0), and the interrupted call and the further calls
emit no move and leave the state Idle. -/
theorem jiggle_interrupt_abandons (s1 s : State) (cs rest : List (Bool × Bool × Nat))
    (c : Bool × Bool × Nat)
    (h1 : s1.jiggle ≠ JiggleState.Idle)
    (hint : c.1 = false ∨ mouseDisabled c.2.1 = true)
    (hUp : s.jiggle = JiggleState.Up)
    (hlive : (runJiggle s cs).jiggle ≠ JiggleState.Idle) :
    updateMouseJiggle c.1 c.2.1 c.2.2 s1 = { s1 with jiggle := JiggleState.Idle } ∧
    (∃ ms, moves (runJiggle s cs).out = moves s.out ++ ms ∧
      ms <+: [(0, -10), (0, 10), (-10, 0), (10, 0)] ∧
      ms ≠ [(0, -10), (0, 10), (-10, 0), (10, 0)]) ∧
    moves (runJiggle s (cs ++ c :: rest)).out = moves (runJiggle s cs).out ∧
    (runJiggle s (cs ++ c :: rest)).jiggle = JiggleState.Idle ∧
    (runJiggle s (cs ++ c :: rest)).jiggleMs = (runJiggle s cs).jiggleMs := by
  have hstep : ∀ s2 : State, s2.jiggle ≠ JiggleState.Idle →
      updateMouseJiggle c.1 c.2.1 c.2.2 s2 = { s2 with jiggle := JiggleState.Idle } := by
    intro s2 h2
    unfold updateMouseJiggle
    rcases hint with h | h
    · simp [h2, h]
    · simp [h2, h]
  have hrun : runJiggle s (cs ++ c :: rest) =
      { runJiggle s cs with jiggle := JiggleState.Idle } := by
    rw [runJiggle_append, runJiggle_cons, hstep _ hlive, runJiggle_idle _ _ rfl]
  refine ⟨hstep s1 h1, ?_, by rw [hrun], by rw [hrun], by rw [hrun]⟩
  obtain ⟨n, hn, hm, hj⟩ := runJiggle_moves_initial cs s s
    ⟨0, by omega, by simp, fun _ => by rw [hUp]; rfl⟩
  have hn' := hj hlive
  have h3 : n < 4 := by
    have := cycleIndex_le (runJiggle s cs).jiggle
    have := (cycleIndex_idle (runJiggle s cs).jiggle).not.2 hlive
    omega
  refine ⟨jiggleMoves.take n, hm, List.take_prefix _ _, ?_⟩
  intro h
  have := congrArg List.length h
  simp [jiggleMoves] at this
  omega

/-- C6 at a concrete run: armed at 0 from boot, the Up move made at 30, the
transport lost at 40, two further calls. -/
theorem jiggle_interrupt_abandons_witness :
    moves (runJiggle (startMouseJiggle true true 0 0 State.boot)
        ([(true, true, 30)] ++ (false, true, 40) :: [(true, true, 70), (true, true, 100)])).out =
      moves (runJiggle (startMouseJiggle true true 0 0 State.boot) [(true, true, 30)]).out ∧
    (runJiggle (startMouseJiggle true true 0 0 State.boot)
        ([(true, true, 30)] ++ (false, true, 40) :: [(true, true, 70), (true, true, 100)])).jiggle
      = JiggleState.Idle :=
  ⟨(jiggle_interrupt_abandons (runJiggle (startMouseJiggle true true 0 0 State.boot)
        [(true, true, 30)]) (startMouseJiggle true true 0 0 State.boot) [(true, true, 30)]
        [(true, true, 70), (true, true, 100)] (false, true, 40)
        (by decide) (by decide) (by decide) (by decide)).2.2.1,
   (jiggle_interrupt_abandons (runJiggle (startMouseJiggle true true 0 0 State.boot)
        [(true, true, 30)]) (startMouseJiggle true true 0 0 State.boot) [(true, true, 30)]
        [(true, true, 70), (true, true, 100)] (false, true, 40)
        (by decide) (by decide) (by decide) (by decide)).2.2.2.1⟩

/-! ## The mouse deadline -/

theorem loopKeyboard_frame (i : TickInput) (s : State) :
    loopKeyboard i s =
      { s with pressedEdge := (loopKeyboard i s).pressedEdge,
               millis_buf := (loopKeyboard i s).millis_buf,
               ledOverride := (loopKeyboard i s).ledOverride,
               ledColor := (loopKeyboard i s).ledColor,
               ledUntil := (loopKeyboard i s).ledUntil,
               out := (loopKeyboard i s).out } := by
  unfold loopKeyboard doKeyboardAction setLedEvent
  simp only []
  split_ifs <;> rfl

theorem add32_mod_left (a b : Nat) : add32 (a % U32) b = add32 a b := by
  simp [add32, Nat.add_mod]

/-- The deadline after the mouse part of `loop` (lines 202-206). -/
theorem loopMouse_nextMouseMs (i : TickInput) (s : State) :
    (loopMouse i s).nextMouseMs =
      if 0 ≤ toInt32 (sub32 i.tNow s.nextMouseMs) then add32 i.tNow MOUSE_PERIOD_MS
      else s.nextMouseMs := by
  unfold loopMouse startMouseJiggle setLedEvent
  simp only [sub32_mod_left, add32_mod_left, ge_iff_le]
  split_ifs <;> rfl

/-- The deadline after a pass of `loop`. -/
theorem loop_nextMouseMs (f : CHSV → CRGB) (i : TickInput) (s : State) :
    (loop f i s).nextMouseMs =
      if 0 ≤ toInt32 (sub32 i.tNow s.nextMouseMs) then add32 i.tNow MOUSE_PERIOD_MS
      else s.nextMouseMs := by
  have h : (loop f i s).nextMouseMs =
      (loopMouse i (loopKeyboard i (updateButton i.btnPin i.tButton s))).nextMouseMs := by
    unfold loop
    simp only []
    rw [updateLed_frame, updateMouseJiggle_frame]
  have h2 : (loopKeyboard i (updateButton i.btnPin i.tButton s)).nextMouseMs = s.nextMouseMs := by
    rw [loopKeyboard_frame, updateButton_frame]
  rw [h, loopMouse_nextMouseMs, h2]

/-- C7, as stated, fails when the pass observes the deadline late: booted at
0 the deadline is 120000; the pass at 120003 has reached it and sets the new
deadline to 240003, not to the old deadline plus the period, 240000. -/
theorem late_tick_shifts_deadline :
    (setup 0 State.boot).nextMouseMs = 120000 ∧
    0 ≤ toInt32 (sub32 (TickInput.uniform 120003 true true true).tNow
          (setup 0 State.boot).nextMouseMs) ∧
    (loop hsvCopy (TickInput.uniform 120003 true true true) (setup 0 State.boot)).nextMouseMs
      = 240003 ∧
    add32 (setup 0 State.boot).nextMouseMs MOUSE_PERIOD_MS = 240000 ∧
    (loop hsvCopy (TickInput.uniform 120003 true true true) (setup 0 State.boot)).nextMouseMs
      ≠ add32 (setup 0 State.boot).nextMouseMs MOUSE_PERIOD_MS := by
  decide

/-- C7 (amended): in a pass of `loop` in which the time read at line 202 has
reached or passed `nextMouseMs`, the new deadline is that time plus
`MOUSE_PERIOD_MS` (mod 2^32), whatever the transport and the disable input
read and whether or not arming succeeds; that is the old deadline plus the
period plus the lateness of the pass, and it is the old deadline plus the
period exactly when the pass reads the deadline itself. -/
theorem deadline_advances_from_now (f : CHSV → CRGB) (i : TickInput) (s : State)
    (hdue : 0 ≤ toInt32 (sub32 i.tNow s.nextMouseMs)) :
    (loop f i s).nextMouseMs = add32 i.tNow MOUSE_PERIOD_MS ∧
    (loop f i s).nextMouseMs =
      add32 s.nextMouseMs (MOUSE_PERIOD_MS + sub32 i.tNow s.nextMouseMs) ∧
    ((loop f i s).nextMouseMs = add32 s.nextMouseMs MOUSE_PERIOD_MS ↔
      sub32 i.tNow s.nextMouseMs = 0) := by
  rw [loop_nextMouseMs, if_pos hdue]
  refine ⟨rfl, ?_, ?_⟩
  · unfold add32 sub32 MOUSE_PERIOD_MS U32
    omega
  · unfold add32 sub32 MOUSE_PERIOD_MS U32
    omega

/-- C7 (amended) at a concrete pass: booted at 0, pass at 120003, transport
not connected. -/
theorem deadline_advances_from_now_witness :
    (loop hsvCopy (TickInput.uniform 120003 true false true) (setup 0 State.boot)).nextMouseMs
      = add32 (TickInput.uniform 120003 true false true).tNow MOUSE_PERIOD_MS :=
  (deadline_advances_from_now hsvCopy (TickInput.uniform 120003 true false true)
    (setup 0 State.boot) (by decide)).1

/-! ## The overlay -/

theorem toInt32_neg_iff (x : Nat) : toInt32 x < 0 ↔ 2147483648 ≤ x % U32 := by
  unfold toInt32 U32
  split_ifs <;> omega

/-- The frame of `renderIdleGradient` is the gradient of the specification. -/
theorem renderIdleGradient_eq (f : CHSV → CRGB) (g : Nat) (s : State) :
    renderIdleGradient f g s =
      { s with leds := specIdleFrame f (g % U32),
               out := s.out ++ [Event.flush (specIdleFrame f (g % U32))] } := by
  have h : (List.range NUM_LEDS).map (fun i => f ⟨idleHue g i, 255, 60⟩) =
      specIdleFrame f (g % U32) := by
    unfold specIdleFrame NUM_LEDS
    apply List.map_congr_left
    intro i _
    have : idleHue g i = ((g % U32) >>> 4 + 7 * i) % 256 := by
      unfold idleHue
      simp only [Nat.shiftRight_eq_div_pow]
      omega
    rw [this]
  unfold renderIdleGradient
  simp only [h]

theorem showSolid_eq (c : CRGB) (s : State) :
    showSolid c s =
      { s with leds := List.replicate 25 c, out := s.out ++ [Event.flush (List.replicate 25 c)] } := by
  have h : (List.range NUM_LEDS).map (fun _ => c) = List.replicate 25 c := by
    unfold NUM_LEDS; rfl
  unfold showSolid
  simp only [h]

/-- The three cases of `updateLed`. -/
theorem updateLed_solid (f : CHSV → CRGB) (now g : Nat) (s : State)
    (h1 : s.ledOverride = true) (h2 : toInt32 (sub32 now s.ledUntil) < 0) :
    updateLed f now g s =
      { s with leds := List.replicate 25 s.ledColor,
               out := s.out ++ [Event.flush (List.replicate 25 s.ledColor)] } := by
  unfold updateLed
  rw [if_pos h1, if_pos h2, showSolid_eq]

theorem updateLed_expired (f : CHSV → CRGB) (now g : Nat) (s : State)
    (h1 : s.ledOverride = true) (h2 : 0 ≤ toInt32 (sub32 now s.ledUntil)) :
    updateLed f now g s =
      { s with ledOverride := false, leds := specIdleFrame f (g % U32),
               out := s.out ++ [Event.flush (specIdleFrame f (g % U32))] } := by
  unfold updateLed
  rw [if_pos h1, if_neg (by omega), renderIdleGradient_eq]

theorem updateLed_inactive (f : CHSV → CRGB) (now g : Nat) (s : State)
    (h1 : s.ledOverride = false) :
    updateLed f now g s =
      { s with leds := specIdleFrame f (g % U32),
               out := s.out ++ [Event.flush (specIdleFrame f (g % U32))] } := by
  unfold updateLed
  rw [if_neg (by simp [h1]), renderIdleGradient_eq]

theorem setLedEvent_ledUntil (c : CRGB) (d t : Nat) (s : State) :
    (setLedEvent c d t s).ledUntil = add32 t d := rfl

theorem setLedEvent_ledOverride (c : CRGB) (d t : Nat) (s : State) :
    (setLedEvent c d t s).ledOverride = true := rfl

/-- The expiry test after `setLedEvent` at `t`, read `e` ms later. -/
theorem expiry_test (t d e : Nat) (hd : d < 2147483648) (he : e < 2147483648) :
    toInt32 (sub32 ((t + e) % U32) (add32 t d)) < 0 ↔ e < d := by
  rw [toInt32_neg_iff]
  unfold sub32 add32 U32
  omega

/-- C8: whatever the overlay state before, after `setLedEvent(c, d)` at time
`t` with `d < 2^31`, a call of `updateLed` `e` ms later (`e < 2^31`, no
`setLedEvent` in between) shows the solid colour `c` on the 25 pixels and
keeps the override when `e < d`; it shows the idle gradient and clears the
override when `d ≤ e`; so, the gradient not being the solid frame of `c`, the
frame is the solid colour `c` if and only if `e < d`.  The state left by
`setLedEvent(c, d)` at `t` does not depend on an earlier `setLedEvent`: the
last request alone sets the colour and the expiry `t + d`. -/
theorem overlay_last_write_wins (f : CHSV → CRGB) (s : State) (c : CRGB)
    (d t e tGrad : Nat) (hd : d < 2147483648) (he : e < 2147483648) :
    (e < d → updateLed f ((t + e) % U32) tGrad (setLedEvent c d t s) =
        { setLedEvent c d t s with
          leds := List.replicate 25 c
          out := s.out ++ [Event.flush (List.replicate 25 c)] }) ∧
    (d ≤ e → updateLed f ((t + e) % U32) tGrad (setLedEvent c d t s) =
        { setLedEvent c d t s with
          ledOverride := false
          leds := specIdleFrame f (tGrad % U32)
          out := s.out ++ [Event.flush (specIdleFrame f (tGrad % U32))] }) ∧
    (specIdleFrame f (tGrad % U32) ≠ List.replicate 25 c →
      ((updateLed f ((t + e) % U32) tGrad (setLedEvent c d t s)).leds = List.replicate 25 c
        ↔ e < d)) ∧
    (∀ (c0 : CRGB) (d0 t0 : Nat),
      setLedEvent c d t (setLedEvent c0 d0 t0 s) = setLedEvent c d t s) := by
  have hlt : e < d → updateLed f ((t + e) % U32) tGrad (setLedEvent c d t s) =
        { setLedEvent c d t s with
          leds := List.replicate 25 c
          out := s.out ++ [Event.flush (List.replicate 25 c)] } := by
    intro h
    have h2 := (expiry_test t d e hd he).2 h
    rw [← setLedEvent_ledUntil c d t s] at h2
    rw [updateLed_solid f _ _ _ (setLedEvent_ledOverride c d t s) h2]
    simp [setLedEvent]
  have hge : d ≤ e → updateLed f ((t + e) % U32) tGrad (setLedEvent c d t s) =
        { setLedEvent c d t s with
          ledOverride := false
          leds := specIdleFrame f (tGrad % U32)
          out := s.out ++ [Event.flush (specIdleFrame f (tGrad % U32))] } := by
    intro h
    have h2 := not_lt.1 ((expiry_test t d e hd he).not.2 (by omega))
    rw [← setLedEvent_ledUntil c d t s] at h2
    rw [updateLed_expired f _ _ _ (setLedEvent_ledOverride c d t s) h2]
    simp [setLedEvent]
  refine ⟨hlt, hge, ?_, fun _ _ _ => rfl⟩
  intro hne
  constructor
  · intro hl
    by_contra hnot
    rw [hge (by omega)] at hl
    exact hne hl
  · intro h
    rw [hlt h]

/-- C8 at a concrete input: a red request at 500 overwritten by a blue
request for 1000 ms at 900, read 999 ms later. -/
theorem overlay_last_write_wins_witness :
    (updateLed hsvCopy ((900 + 999) % U32) 1899
        (setLedEvent CRGB.Blue 1000 900 (setLedEvent CRGB.Red 1000 500 State.boot))).leds
      = List.replicate 25 CRGB.Blue :=
  ((overlay_last_write_wins hsvCopy (setLedEvent CRGB.Red 1000 500 State.boot) CRGB.Blue
      1000 900 999 1899 (by decide) (by decide)).2.2.1 (by decide)).2 (by decide)

theorem frames_append (a b : List Event) : frames (a ++ b) = frames a ++ frames b := by
  simp [frames, List.filterMap_append]

theorem runLed_cons (f : CHSV → CRGB) (s : State) (c : Nat × Nat) (cs : List (Nat × Nat)) :
    runLed f s (c :: cs) = runLed f (updateLed f c.1 c.2 s) cs := rfl

/-- An inactive override stays inactive under `updateLed`, and every frame is
the idle gradient. -/
theorem runLed_inactive (f : CHSV → CRGB) (cs : List (Nat × Nat)) (s : State)
    (h : s.ledOverride = false) :
    (runLed f s cs).ledOverride = false ∧
    frames (runLed f s cs).out =
      frames s.out ++ cs.map (fun c => specIdleFrame f (c.2 % U32)) := by
  induction cs generalizing s with
  | nil => simp [runLed, h]
  | cons c cs ih =>
    rw [runLed_cons]
    have hs := updateLed_inactive f c.1 c.2 s h
    obtain ⟨h1, h2⟩ := ih (updateLed f c.1 c.2 s) (by rw [hs]; exact h)
    refine ⟨h1, ?_⟩
    rw [h2, hs]
    simp [frames_append, frames]

/-- C9: for every state and every time `now` read at line 81 (`g` being the
time read at line 71 when the gradient is drawn): when the override is active
and `now` has not reached `ledUntil`, `updateLed` shows the solid override
colour on the 25 pixels and leaves the overlay state unchanged; when the
override is active and `now` has reached or passed `ledUntil`, it clears
`ledOverride` and shows, in that same call, the idle gradient, pixel `i` being
`CHSV(((g >> 4) + 7*i) mod 256, 255, 60)`; when the override is inactive it
shows the idle gradient and the override stays inactive.  Once inactive, the
override stays inactive through any number of further `updateLed` calls, all
of which show the idle gradient. -/
theorem updateLed_renders (f : CHSV → CRGB) (s : State) (now g : Nat) :
    (s.ledOverride = true → toInt32 (sub32 now s.ledUntil) < 0 →
      updateLed f now g s =
        { s with leds := List.replicate 25 s.ledColor,
                 out := s.out ++ [Event.flush (List.replicate 25 s.ledColor)] }) ∧
    (s.ledOverride = true → 0 ≤ toInt32 (sub32 now s.ledUntil) →
      updateLed f now g s =
        { s with ledOverride := false, leds := specIdleFrame f (g % U32),
                 out := s.out ++ [Event.flush (specIdleFrame f (g % U32))] }) ∧
    (s.ledOverride = false →
      updateLed f now g s =
        { s with leds := specIdleFrame f (g % U32),
                 out := s.out ++ [Event.flush (specIdleFrame f (g % U32))] }) ∧
    ((updateLed f now g s).ledOverride = false → ∀ cs : List (Nat × Nat),
      (runLed f (updateLed f now g s) cs).ledOverride = false ∧
      frames (runLed f (updateLed f now g s) cs).out =
        frames (updateLed f now g s).out ++ cs.map (fun c => specIdleFrame f (c.2 % U32))) :=
  ⟨updateLed_solid f now g s, updateLed_expired f now g s, updateLed_inactive f now g s,
    fun h cs => runLed_inactive f cs _ h⟩

/-- C9 at a concrete input: the red overlay requested at 0 for 1000 ms, read
at 1000, then at 1005 and 1010. -/
theorem updateLed_renders_witness :
    (updateLed hsvCopy 1000 1000 (setLedEvent CRGB.Red 1000 0 State.boot)).leds =
      specIdleFrame hsvCopy (1000 % U32) ∧
    (runLed hsvCopy (updateLed hsvCopy 1000 1000 (setLedEvent CRGB.Red 1000 0 State.boot))
      [(1005, 1005), (1010, 1010)]).ledOverride = false :=
  ⟨congrArg State.leds
      ((updateLed_renders hsvCopy (setLedEvent CRGB.Red 1000 0 State.boot) 1000 1000).2.1
        (by decide) (by decide)),
   ((updateLed_renders hsvCopy (setLedEvent CRGB.Red 1000 0 State.boot) 1000 1000).2.2.2
      (by decide) [(1005, 1005), (1010, 1010)]).1⟩

/-! ## Arming -/

/-- C10: `startMouseJiggle` arms the sequence if and only if the transport
reports connected and the disable input is not asserted (PIN_DISABLE reads
HIGH).  When both hold, the state becomes Up, the step timestamp the time
read at line 135, and the blue overlay is requested until the time read in
`setLedEvent` plus 1000 ms, nothing else changing.  When either fails nothing
changes: the jiggle state, the step timestamp, the overlay state and the log
of device calls are all as before.  In both cases no pointer move is
emitted. -/
theorem startMouseJiggle_arms_iff (s : State) (connected pin : Bool) (tLed now : Nat) :
    (connected = true ∧ mouseDisabled pin = false →
      startMouseJiggle connected pin tLed now s =
        { s with ledOverride := true, ledColor := CRGB.Blue,
                 ledUntil := add32 tLed 1000,
                 jiggle := JiggleState.Up, jiggleMs := now % U32 }) ∧
    (¬ (connected = true ∧ mouseDisabled pin = false) →
      startMouseJiggle connected pin tLed now s = s) ∧
    (s.jiggle ≠ JiggleState.Up →
      ((startMouseJiggle connected pin tLed now s).jiggle = JiggleState.Up ↔
        (connected = true ∧ mouseDisabled pin = false))) ∧
    (mouseDisabled pin = false ↔ pin = true) ∧
    moves (startMouseJiggle connected pin tLed now s).out = moves s.out := by
  unfold startMouseJiggle setLedEvent mouseDisabled LED_EVENT_MS
  cases connected <;> cases pin <;> simp

/-! ## The step relation of the jiggle sequence -/

theorem updateMouseJiggle_step (c p : Bool) (t : Nat) (s : State)
    (h0 : s.jiggle ≠ JiggleState.Idle) (hc : c = true) (hp : mouseDisabled p = false)
    (ht : 25 ≤ sub32 t s.jiggleMs) :
    updateMouseJiggle c p t s =
      { s with jiggleMs := t % U32, jiggle := specNext s.jiggle,
               out := s.out ++ (specMove s.jiggle).map (fun m => Event.move m.1 m.2) } := by
  unfold updateMouseJiggle
  rw [if_neg h0]
  have ht' : ¬ sub32 t s.jiggleMs < 25 := by omega
  simp only [hc, hp, Bool.not_true, Bool.false_eq_true, if_false, ht']
  cases hj : s.jiggle <;> simp_all [specNext, specMove, MOUSE_STEP]

theorem updateMouseJiggle_abandon (c p : Bool) (t : Nat) (s : State)
    (h0 : s.jiggle ≠ JiggleState.Idle) (h : c = false ∨ mouseDisabled p = true) :
    updateMouseJiggle c p t s = { s with jiggle := JiggleState.Idle } := by
  unfold updateMouseJiggle
  rcases h with h | h
  · simp [h0, h]
  · simp [h0, h]

/-- The jiggle state after a pass of `loop` is the one `updateMouseJiggle`
leaves after the mouse part of the pass. -/
theorem loop_jiggle (f : CHSV → CRGB) (i : TickInput) (s : State) :
    (loop f i s).jiggle =
      (updateMouseJiggle i.jigConnected i.jigPin i.tJiggle
        (loopMouse i (loopKeyboard i (updateButton i.btnPin i.tButton s)))).jiggle := by
  unfold loop
  simp only []
  rw [updateLed_frame]

theorem loopMouse_not_due (i : TickInput) (s : State)
    (h : ¬ 0 ≤ toInt32 (sub32 i.tNow s.nextMouseMs)) : loopMouse i s = s := by
  unfold loopMouse
  simp only [sub32_mod_left, ge_iff_le]
  rw [if_neg h]

theorem loopMouse_due (i : TickInput) (s : State)
    (h : 0 ≤ toInt32 (sub32 i.tNow s.nextMouseMs)) :
    loopMouse i s =
      startMouseJiggle i.armConnected i.armPin i.tArmLed i.tArm
        { s with nextMouseMs := add32 i.tNow MOUSE_PERIOD_MS } := by
  unfold loopMouse
  simp only [sub32_mod_left, add32_mod_left, ge_iff_le]
  rw [if_pos h]

theorem startMouseJiggle_fail (c p : Bool) (a b : Nat) (s : State)
    (h : c = false ∨ mouseDisabled p = true) : startMouseJiggle c p a b s = s := by
  unfold startMouseJiggle
  rcases h with h | h
  · simp [h]
  · simp [h]

theorem startMouseJiggle_ok (c p : Bool) (a b : Nat) (s : State)
    (hc : c = true) (hp : mouseDisabled p = false) :
    startMouseJiggle c p a b s =
      { s with ledOverride := true, ledColor := CRGB.Blue, ledUntil := add32 a LED_EVENT_MS,
               jiggle := JiggleState.Up, jiggleMs := b % U32 } := by
  unfold startMouseJiggle setLedEvent
  simp [hc, hp]

/-- C18: one call of `updateMouseJiggle` either leaves the jiggle state and
the moves emitted unchanged; or, from a state that is not Idle, moves the
state to its successor in Up, Down, Left, Right, Idle and emits exactly the
move of the state it leaves; or, from a state that is not Idle, resets the
state to Idle and emits no move.  From Idle the call changes nothing at all
(no move, same state, same step timestamp), whatever the transport, the
disable input and the clock read.  In a pass of `loop` from Idle, the parts
other than `startMouseJiggle` keep the state Idle: the state after the pass is
not Idle only if the deadline fired and `startMouseJiggle` found the transport
connected and the disable input not asserted. -/
theorem jiggle_step_relation (f : CHSV → CRGB) (i : TickInput) (c p : Bool) (t : Nat)
    (s : State) :
    (((updateMouseJiggle c p t s).jiggle = s.jiggle ∧
        moves (updateMouseJiggle c p t s).out = moves s.out) ∨
      (s.jiggle ≠ JiggleState.Idle ∧
        (updateMouseJiggle c p t s).jiggle = specNext s.jiggle ∧
        moves (updateMouseJiggle c p t s).out = moves s.out ++ specMove s.jiggle) ∨
      (s.jiggle ≠ JiggleState.Idle ∧
        (updateMouseJiggle c p t s).jiggle = JiggleState.Idle ∧
        moves (updateMouseJiggle c p t s).out = moves s.out)) ∧
    (s.jiggle = JiggleState.Idle → updateMouseJiggle c p t s = s) ∧
    (s.jiggle = JiggleState.Idle →
      (updateButton i.btnPin i.tButton s).jiggle = JiggleState.Idle ∧
      (loopKeyboard i s).jiggle = JiggleState.Idle ∧
      (updateLed f i.tLed i.tGradient s).jiggle = JiggleState.Idle ∧
      ((loop f i s).jiggle ≠ JiggleState.Idle →
        0 ≤ toInt32 (sub32 i.tNow s.nextMouseMs) ∧ i.armConnected = true ∧
          mouseDisabled i.armPin = false)) := by
  refine ⟨?_, updateMouseJiggle_idle c p t s, ?_⟩
  · by_cases h0 : s.jiggle = JiggleState.Idle
    · left; rw [updateMouseJiggle_idle c p t s h0]; exact ⟨rfl, rfl⟩
    · by_cases hen : c = true ∧ mouseDisabled p = false
      · by_cases ht : sub32 t s.jiggleMs < 25
        · left; rw [updateMouseJiggle_wait c p t s hen.1 hen.2 ht]; exact ⟨rfl, rfl⟩
        · right; left
          rw [updateMouseJiggle_step c p t s h0 hen.1 hen.2 (by omega)]
          exact ⟨h0, rfl, by simp [moves_append, moves_map_move]⟩
      · right; right
        have hint : c = false ∨ mouseDisabled p = true := by
          cases c <;> cases hp : mouseDisabled p <;> simp_all
        rw [updateMouseJiggle_abandon c p t s h0 hint]
        exact ⟨h0, rfl, rfl⟩
  · intro h0
    have hb : (updateButton i.btnPin i.tButton s).jiggle = JiggleState.Idle := by
      rw [updateButton_frame]; exact h0
    have hk : ∀ s1 : State, s1.jiggle = JiggleState.Idle →
        (loopKeyboard i s1).jiggle = JiggleState.Idle := by
      intro s1 h1; rw [loopKeyboard_frame]; exact h1
    refine ⟨hb, hk s h0, by rw [updateLed_frame]; exact h0, ?_⟩
    intro hne
    rw [loop_jiggle] at hne
    have hkb := hk _ hb
    have hnext : (loopKeyboard i (updateButton i.btnPin i.tButton s)).nextMouseMs
        = s.nextMouseMs := by
      rw [loopKeyboard_frame, updateButton_frame]
    by_contra hcon
    apply hne
    have hm : (loopMouse i (loopKeyboard i (updateButton i.btnPin i.tButton s))).jiggle
        = JiggleState.Idle := by
      by_cases hdue : 0 ≤ toInt32 (sub32 i.tNow s.nextMouseMs)
      · rw [loopMouse_due _ _ (by rw [hnext]; exact hdue)]
        rw [startMouseJiggle_fail]
        · exact hkb
        · cases hc : i.armConnected <;> cases hp : mouseDisabled i.armPin <;> simp_all
      · rw [loopMouse_not_due _ _ (by rw [hnext]; exact hdue)]
        exact hkb
    rw [updateMouseJiggle_idle _ _ _ _ hm]
    exact hm

/-! ## Wraparound of the millisecond counter -/

/-- The five clock tests of the firmware, on the counter value read `e` ms
after a stamp `s`, against the same tests on `e`. -/
theorem clock_tests (s e : Nat) (he : e < 2147483648) :
    (DEBOUNCE_MS ≤ sub32 ((s + e) % U32) s ↔ 40 ≤ e) ∧
    (1000 < sub32 ((s + e) % U32) s ↔ 1000 < e) ∧
    (sub32 ((s + e) % U32) s < 25 ↔ e < 25) ∧
    (0 ≤ toInt32 (sub32 ((s + e) % U32) (add32 s MOUSE_PERIOD_MS)) ↔ 120000 ≤ e) ∧
    (toInt32 (sub32 ((s + e) % U32) (add32 s LED_EVENT_MS)) < 0 ↔ e < 1000) := by
  have h1 : sub32 ((s + e) % U32) s = e := by
    unfold sub32 U32; omega
  have h4 : 0 ≤ toInt32 (sub32 ((s + e) % U32) (add32 s MOUSE_PERIOD_MS)) ↔ 120000 ≤ e := by
    rw [← not_lt, toInt32_neg_iff]
    unfold sub32 add32 MOUSE_PERIOD_MS U32
    omega
  refine ⟨by rw [h1]; rfl, by rw [h1], by rw [h1], h4, ?_⟩
  exact expiry_test s 1000 e (by norm_num) he

/-- C15: for every stamp `s` and elapsed time `e < 2^31`, with the counter
reading `(s + e) mod 2^32`, also when `s + e` or `s` plus the period crosses
`2^32`: the debounce test `now - lastChangeMs >= 40` is `e >= 40`, the
cooldown test `now - millis_buf > 1000` is `e > 1000`, the jiggle step test
`now - jiggleMs < 25` is `e < 25`, the deadline test
`(int32)(now - nextMouseMs) >= 0` with `nextMouseMs = s + 120000` is
`e >= 120000`, and the overlay test `(int32)(now - ledUntil) < 0` with
`ledUntil = s + 1000` is `e < 1000`; and the functions act accordingly:
`updateButton` adopts a held raw level exactly when `e >= 40`, the keyboard
trigger sends exactly when `e > 1000`, `updateMouseJiggle` emits a move exactly
when `e >= 25`, the mouse part of `loop` leaves the state alone exactly when
`e < 120000`, and `updateLed` keeps the override exactly when `e < 1000`. -/
theorem timing_wraparound_safe (f : CHSV → CRGB) (s e : Nat) (he : e < 2147483648) :
    ((DEBOUNCE_MS ≤ sub32 ((s + e) % U32) s ↔ 40 ≤ e) ∧
      (1000 < sub32 ((s + e) % U32) s ↔ 1000 < e) ∧
      (sub32 ((s + e) % U32) s < 25 ↔ e < 25) ∧
      (0 ≤ toInt32 (sub32 ((s + e) % U32) (add32 s MOUSE_PERIOD_MS)) ↔ 120000 ≤ e) ∧
      (toInt32 (sub32 ((s + e) % U32) (add32 s LED_EVENT_MS)) < 0 ↔ e < 1000)) ∧
    (∀ (st : State) (pin : Bool), st.lastRaw = pin → st.lastChangeMs = s → st.stable ≠ pin →
      ((updateButton pin ((s + e) % U32) st).stable = pin ↔ 40 ≤ e)) ∧
    (∀ (i : TickInput) (st : State), st.pressedEdge = true → st.millis_buf = s →
      i.tCooldown = (s + e) % U32 → i.kbConnected = true →
      (sentTexts (loopKeyboard i st).out = sentTexts st.out ++ [TEXT_TO_TYPE] ↔ 1000 < e)) ∧
    (∀ (st : State), st.jiggle ≠ JiggleState.Idle → st.jiggleMs = s →
      (moves (updateMouseJiggle true true ((s + e) % U32) st).out ≠ moves st.out ↔ 25 ≤ e)) ∧
    (∀ (i : TickInput) (st : State), st.nextMouseMs = add32 s MOUSE_PERIOD_MS →
      i.tNow = (s + e) % U32 → (loopMouse i st = st ↔ e < 120000)) ∧
    (∀ (st : State) (g : Nat), st.ledOverride = true → st.ledUntil = add32 s LED_EVENT_MS →
      ((updateLed f ((s + e) % U32) g st).ledOverride = true ↔ e < 1000)) := by
  obtain ⟨h1, h2, h3, h4, h5⟩ := clock_tests s e he
  refine ⟨⟨h1, h2, h3, h4, h5⟩, ?_, ?_, ?_, ?_, ?_⟩
  · intro st pin hraw hst hne
    rw [← h1, ← hst]
    unfold updateButton
    cases pin <;> cases hs : st.stable <;> simp_all
    · split_ifs <;> simp_all
    · split_ifs <;> simp_all
  · intro i st hedge hbuf hcool hconn
    have h2' : 1000 < sub32 i.tCooldown st.millis_buf ↔ 1000 < e := by
      rw [hbuf, hcool]; exact h2
    rw [← h2']
    by_cases hc : 1000 < sub32 i.tCooldown st.millis_buf
    · rw [loopKeyboard_pass i st hedge hc]
      simp [doKeyboardAction, setLedEvent, hconn, sentTexts, List.filterMap_append, hc]
    · rw [loopKeyboard_drop i st hedge hc]
      simp [hc]
  · intro st h0 hms
    have h3' : 25 ≤ sub32 ((s + e) % U32) st.jiggleMs ↔ 25 ≤ e := by
      rw [hms]; constructor <;> intro h <;> by_contra hc <;> simp only [not_le] at hc
      · exact absurd (h3.2 hc) (by omega)
      · exact absurd (h3.1 hc) (by omega)
    rw [← h3']
    by_cases ht : sub32 ((s + e) % U32) st.jiggleMs < 25
    · rw [updateMouseJiggle_wait true true _ st rfl rfl ht]
      simp; omega
    · rw [updateMouseJiggle_step true true _ st h0 rfl rfl (by omega)]
      simp only [moves_append, moves_map_move]
      cases hj : st.jiggle <;> simp_all [specMove]
  · intro i st hnext hnow
    have h4' : 0 ≤ toInt32 (sub32 i.tNow st.nextMouseMs) ↔ 120000 ≤ e := by
      rw [hnext, hnow]; exact h4
    by_cases hdue : 0 ≤ toInt32 (sub32 i.tNow st.nextMouseMs)
    · have he' := h4'.1 hdue
      constructor
      · intro heq
        have hn := congrArg State.nextMouseMs heq
        rw [loopMouse_nextMouseMs, if_pos hdue, hnext, hnow] at hn
        exfalso
        revert hn
        unfold add32 MOUSE_PERIOD_MS U32
        omega
      · intro h; omega
    · rw [loopMouse_not_due i st hdue]
      simp only [true_iff]
      by_contra hc
      exact hdue (h4'.2 (by omega))
  · intro st g hov hun
    by_cases hlt : toInt32 (sub32 ((s + e) % U32) st.ledUntil) < 0
    · rw [updateLed_solid f _ g st hov hlt]
      rw [hun] at hlt
      simp [hov, h5.1 hlt]
    · rw [updateLed_expired f _ g st hov (by omega)]
      rw [hun] at hlt
      simp only [Bool.false_eq_true, false_iff]
      intro h; exact hlt (h5.2 h)

/-- C15 at a concrete input: a stamp 6 ms before the counter wraps, read
40 ms later. -/
theorem timing_wraparound_safe_witness :
    (DEBOUNCE_MS ≤ sub32 ((4294967290 + 40) % U32) 4294967290 ↔ 40 ≤ 40) ∧
    (toInt32 (sub32 ((4294967290 + 40) % U32) (add32 4294967290 LED_EVENT_MS)) < 0 ↔
      40 < 1000) :=
  ⟨(timing_wraparound_safe hsvCopy 4294967290 40 (by decide)).1.1,
   (timing_wraparound_safe hsvCopy 4294967290 40 (by decide)).1.2.2.2.2⟩

/-! ## Bouncing inputs -/

theorem updateButton_flip (pin : Bool) (t : Nat) (s : State) (h : pin ≠ s.lastRaw) :
    updateButton pin t s = { s with lastRaw := pin, lastChangeMs := t % U32 } := by
  unfold updateButton
  cases pin <;> cases hl : s.lastRaw <;>
    simp_all [sub32_mod_right, sub32_self, DEBOUNCE_MS]

theorem updateButton_keep (pin : Bool) (t : Nat) (s : State) (h : pin = s.lastRaw)
    (hw : s.stable = s.lastRaw ∨ sub32 t s.lastChangeMs < DEBOUNCE_MS) :
    updateButton pin t s = s := by
  subst h
  unfold updateButton
  rcases hw with hw | hw
  · cases hl : s.lastRaw <;> simp [hl, hw]
  · have : ¬ DEBOUNCE_MS ≤ sub32 t s.lastChangeMs := by omega
    cases hl : s.lastRaw <;> simp [hl, this]

theorem runButton_cons (s : State) (x : Bool × Nat) (xs : List (Bool × Nat)) :
    runButton s (x :: xs) = runButton (updateButton x.1 x.2 s) xs := rfl

/-- While the input keeps bouncing, the stable level and `pressedEdge` keep
their values. -/
theorem runButton_bouncing (xs : List (Bool × Nat)) (s : State) (w : Option Nat)
    (h1 : w = none → s.stable = s.lastRaw)
    (h2 : ∀ τ, w = some τ → s.lastChangeMs % U32 = τ % U32)
    (hb : Bouncing s.lastRaw w xs = true) :
    (runButton s xs).stable = s.stable ∧ (runButton s xs).pressedEdge = s.pressedEdge := by
  induction xs generalizing s w with
  | nil => exact ⟨rfl, rfl⟩
  | cons x xs ih =>
    obtain ⟨r, t⟩ := x
    rw [runButton_cons]
    simp only [Bouncing] at hb
    by_cases hr : r = s.lastRaw
    · rw [if_neg (by simpa using hr)] at hb
      simp only [Bool.and_eq_true] at hb
      have hk : updateButton r t s = s := by
        apply updateButton_keep r t s hr
        cases hw : w with
        | none => exact Or.inl (h1 hw)
        | some τ =>
          right
          rw [← sub32_mod_right, h2 τ hw, sub32_mod_right]
          have := hb.1
          rw [hw] at this
          simpa using this
      simp only [hk]
      exact ih s w h1 h2 hb.2
    · rw [if_pos (by simpa using hr)] at hb
      have hf := updateButton_flip r t s hr
      simp only [hf]
      exact ih { s with lastRaw := r, lastChangeMs := t % U32 } (some t)
        (fun h => by cases h) (fun τ h => by cases h; simp) hb

theorem bouncing_take (k : Nat) (xs : List (Bool × Nat)) (raw : Bool) (w : Option Nat)
    (hb : Bouncing raw w xs = true) : Bouncing raw w (xs.take k) = true := by
  induction xs generalizing raw w k with
  | nil => simpa using hb
  | cons x xs ih =>
    obtain ⟨r, t⟩ := x
    cases k with
    | zero => simp [Bouncing]
    | succ k =>
      simp only [List.take_succ_cons, Bouncing] at hb ⊢
      split_ifs at hb ⊢ with hr
      · exact ih k r (some t) hb
      · simp only [Bool.and_eq_true] at hb ⊢
        exact ⟨hb.1, ih k raw w hb.2⟩

/-- C16, as stated, fails in its second part when the sequence goes on for
40 ms after its last flip: from boot, the raw level flips at 0, 10 and 20
(consecutive flips 10 ms apart) and is still pressed at 60; at that sample
the stable level changes and `pressedEdge` is set. -/
theorem quiet_tail_changes_stable :
    sub32 10 0 < DEBOUNCE_MS ∧ sub32 20 10 < DEBOUNCE_MS ∧
    (runButton State.boot [(false, 0), (true, 10), (false, 20)]).stable = true ∧
    (runButton State.boot [(false, 0), (true, 10), (false, 20)]).pressedEdge = false ∧
    (runButton State.boot [(false, 0), (true, 10), (false, 20), (false, 60)]).stable = false ∧
    (runButton State.boot [(false, 0), (true, 10), (false, 20), (false, 60)]).pressedEdge
      = true := by
  decide

/-- C16 (amended): for every state, level and time, `updateButton` leaves
`lastChangeMs` alone when the sampled raw level is `lastRaw` (also when the
stable level changes in that call) and sets it to the time read when the
level differs.  Every raw flip restarts the debounce window: for every sample
list that keeps bouncing to its end (each sample is a raw flip or is taken
less than 40 ms after the most recent raw flip; samples read before the first
flip are free when the stable level is the raw level), however long and
whatever the share of pressed samples, after every sample the stable level
and `pressedEdge` are what they were before the first one. -/
theorem bounce_restarts_window (s0 : State) (pin : Bool) (now : Nat)
    (xs : List (Bool × Nat)) :
    ((updateButton pin now s0).lastChangeMs =
        if pin = s0.lastRaw then s0.lastChangeMs else now % U32) ∧
    (Bouncing s0.lastRaw (initialWindow s0) xs = true →
      ∀ k, (runButton s0 (xs.take k)).stable = s0.stable ∧
           (runButton s0 (xs.take k)).pressedEdge = s0.pressedEdge) := by
  refine ⟨updateButton_lastChangeMs pin now s0, ?_⟩
  intro hb k
  apply runButton_bouncing (xs.take k) s0 (initialWindow s0) _ _ (bouncing_take k xs _ _ hb)
  · intro h
    unfold initialWindow at h
    split_ifs at h with hs
    exact hs
  · intro τ h
    unfold initialWindow at h
    split_ifs at h with hs
    cases h
    rfl

/-- C16 (amended) at a concrete input: from boot, the level flips every 30 ms for
150 ms, a sample 15 ms after each flip. -/
theorem bounce_restarts_window_witness :
    (runButton State.boot
      [(false, 100), (false, 115), (true, 130), (true, 145), (false, 160), (false, 175),
       (true, 190), (true, 205), (false, 220), (false, 235)]).stable = State.boot.stable ∧
    (runButton State.boot
      [(false, 100), (false, 115), (true, 130), (true, 145), (false, 160), (false, 175),
       (true, 190), (true, 205), (false, 220), (false, 235)]).pressedEdge
      = State.boot.pressedEdge := by
  have h := (bounce_restarts_window State.boot true 0
    [(false, 100), (false, 115), (true, 130), (true, 145), (false, 160), (false, 175),
     (true, 190), (true, 205), (false, 220), (false, 235)]).2 (by decide) 10
  exact h

/-! ## The mouse part of `loop` on its own -/

theorem updateMouseJiggle_agree (c p : Bool) (t : Nat) (a b : State) (h : MouseAgree a b) :
    MouseAgree (updateMouseJiggle c p t a) (updateMouseJiggle c p t b) := by
  obtain ⟨h1, h2, h3, h4⟩ := h
  by_cases h0 : a.jiggle = JiggleState.Idle
  · rw [updateMouseJiggle_idle c p t a h0, updateMouseJiggle_idle c p t b (h2 ▸ h0)]
    exact ⟨h1, h2, h3, h4⟩
  · have h0b : b.jiggle ≠ JiggleState.Idle := h2 ▸ h0
    by_cases hen : c = true ∧ mouseDisabled p = false
    · by_cases ht : sub32 t a.jiggleMs < 25
      · rw [updateMouseJiggle_wait c p t a hen.1 hen.2 ht,
          updateMouseJiggle_wait c p t b hen.1 hen.2 (h3 ▸ ht)]
        exact ⟨h1, h2, h3, h4⟩
      · rw [updateMouseJiggle_step c p t a h0 hen.1 hen.2 (by omega),
          updateMouseJiggle_step c p t b h0b hen.1 hen.2 (by rw [← h3]; omega)]
        refine ⟨h1, by simp only [h2], rfl, ?_⟩
        simp only [moves_append, h4, h2]
    · have hint : c = false ∨ mouseDisabled p = true := by
        cases c <;> cases hp : mouseDisabled p <;> simp_all
      rw [updateMouseJiggle_abandon c p t a h0 hint, updateMouseJiggle_abandon c p t b h0b hint]
      exact ⟨h1, rfl, h3, h4⟩

theorem loopMouse_agree (i : TickInput) (a b : State) (h : MouseAgree a b) :
    MouseAgree (loopMouse i a) (loopMouse i b) := by
  obtain ⟨h1, h2, h3, h4⟩ := h
  by_cases hdue : 0 ≤ toInt32 (sub32 i.tNow a.nextMouseMs)
  · rw [loopMouse_due i a hdue, loopMouse_due i b (h1 ▸ hdue)]
    by_cases hen : i.armConnected = true ∧ mouseDisabled i.armPin = false
    · rw [startMouseJiggle_ok _ _ _ _ _ hen.1 hen.2, startMouseJiggle_ok _ _ _ _ _ hen.1 hen.2]
      exact ⟨rfl, rfl, rfl, h4⟩
    · have hint : i.armConnected = false ∨ mouseDisabled i.armPin = true := by
        cases hc : i.armConnected <;> cases hp : mouseDisabled i.armPin <;> simp_all
      rw [startMouseJiggle_fail _ _ _ _ _ hint, startMouseJiggle_fail _ _ _ _ _ hint]
      exact ⟨rfl, h2, h3, h4⟩
  · rw [loopMouse_not_due i a hdue, loopMouse_not_due i b (h1 ▸ hdue)]
    exact ⟨h1, h2, h3, h4⟩

theorem updateLed_moves (f : CHSV → CRGB) (t g : Nat) (s : State) :
    moves (updateLed f t g s).out = moves s.out := by
  unfold updateLed showSolid renderIdleGradient
  simp only []
  split_ifs <;> simp [moves, List.filterMap_append]

theorem loopKeyboard_moves (i : TickInput) (s : State) :
    moves (loopKeyboard i s).out = moves s.out := by
  unfold loopKeyboard doKeyboardAction setLedEvent
  simp only []
  split_ifs <;> simp [moves, List.filterMap_append]

/-- A pass of `loop` acts on the deadline, the jiggle state, the step
timestamp and the moves emitted as its mouse part alone does. -/
theorem loop_agree (f : CHSV → CRGB) (i : TickInput) (a b : State) (h : MouseAgree a b) :
    MouseAgree (loop f i a) (stepMouse i b) := by
  have h0 : MouseAgree (loopKeyboard i (updateButton i.btnPin i.tButton a)) b := by
    obtain ⟨h1, h2, h3, h4⟩ := h
    refine ⟨?_, ?_, ?_, ?_⟩
    · rw [loopKeyboard_frame, updateButton_frame]; exact h1
    · rw [loopKeyboard_frame, updateButton_frame]; exact h2
    · rw [loopKeyboard_frame, updateButton_frame]; exact h3
    · rw [loopKeyboard_moves, updateButton_out]; exact h4
  obtain ⟨g1, g2, g3, g4⟩ :=
    updateMouseJiggle_agree i.jigConnected i.jigPin i.tJiggle _ _ (loopMouse_agree i _ _ h0)
  unfold loop stepMouse
  simp only []
  refine ⟨?_, ?_, ?_, ?_⟩
  · rw [updateLed_frame]; exact g1
  · rw [updateLed_frame]; exact g2
  · rw [updateLed_frame]; exact g3
  · rw [updateLed_moves]; exact g4

theorem runLoop_cons (f : CHSV → CRGB) (s : State) (i : TickInput) (is : List TickInput) :
    runLoop f s (i :: is) = runLoop f (loop f i s) is := rfl

theorem runMouse_cons (s : State) (i : TickInput) (is : List TickInput) :
    runMouse s (i :: is) = runMouse (stepMouse i s) is := rfl

theorem runLoop_agree (f : CHSV → CRGB) (ticks : List TickInput) (a b : State)
    (h : MouseAgree a b) : MouseAgree (runLoop f a ticks) (runMouse b ticks) := by
  induction ticks generalizing a b with
  | nil => exact h
  | cons i is ih =>
    rw [runLoop_cons, runMouse_cons]
    exact ih _ _ (loop_agree f i a b h)

theorem mouseAgree_refl (s : State) : MouseAgree s s := ⟨rfl, rfl, rfl, rfl⟩

/-! ## Re-arming -/

set_option maxRecDepth 100000 in
/-- C20: `startMouseJiggle`, run with the transport connected and the disable
input not asserted while the jiggle state is Down, Left or Right, sets the
state back to Up and the step timestamp to the time read.  Hence there is a
run of passes of `loop`, transport connected and disable input never
asserted, with a gap long enough for the next deadline to fire in the middle
of the sequence (`rearmTicks`, booted at 0): the sequence is armed by the
first pass, the state is not Idle after each of the first six passes and is
Idle after the seventh, and the moves emitted are five, Up, Up, Down, Left,
Right: more than four, and not the sequence Up, Down, Left, Right. -/
theorem rearm_restarts_sequence (f : CHSV → CRGB) :
    (∀ (s : State) (pin : Bool) (tLed now : Nat), mouseDisabled pin = false →
      (s.jiggle = JiggleState.Down ∨ s.jiggle = JiggleState.Left ∨
        s.jiggle = JiggleState.Right) →
      (startMouseJiggle true pin tLed now s).jiggle = JiggleState.Up ∧
      (startMouseJiggle true pin tLed now s).jiggleMs = now % U32) ∧
    (∀ i ∈ rearmTicks, i.armConnected = true ∧ i.jigConnected = true ∧
      mouseDisabled i.armPin = false ∧ mouseDisabled i.jigPin = false) ∧
    (setup 0 State.boot).jiggle = JiggleState.Idle ∧
    (runLoop f (setup 0 State.boot) (rearmTicks.take 1)).jiggle = JiggleState.Up ∧
    (∀ k, 1 ≤ k → k ≤ 6 →
      (runLoop f (setup 0 State.boot) (rearmTicks.take k)).jiggle ≠ JiggleState.Idle) ∧
    (runLoop f (setup 0 State.boot) rearmTicks).jiggle = JiggleState.Idle ∧
    moves (runLoop f (setup 0 State.boot) rearmTicks).out =
      [(0, -10), (0, -10), (0, 10), (-10, 0), (10, 0)] ∧
    4 < (moves (runLoop f (setup 0 State.boot) rearmTicks).out).length ∧
    moves (runLoop f (setup 0 State.boot) rearmTicks).out ≠
      [(0, -10), (0, 10), (-10, 0), (10, 0)] := by
  have hrun : ∀ k, MouseAgree (runLoop f (setup 0 State.boot) (rearmTicks.take k))
      (runMouse (setup 0 State.boot) (rearmTicks.take k)) :=
    fun k => runLoop_agree f _ _ _ (mouseAgree_refl _)
  have hall : MouseAgree (runLoop f (setup 0 State.boot) rearmTicks)
      (runMouse (setup 0 State.boot) rearmTicks) :=
    runLoop_agree f _ _ _ (mouseAgree_refl _)
  have hm : moves (runLoop f (setup 0 State.boot) rearmTicks).out =
      [(0, -10), (0, -10), (0, 10), (-10, 0), (10, 0)] := by
    rw [hall.2.2.2]; decide
  refine ⟨?_, by decide, rfl, ?_, ?_, ?_, hm, by rw [hm]; decide, by rw [hm]; decide⟩
  · intro s pin tLed now hp _
    rw [startMouseJiggle_ok true pin tLed now s rfl hp]
    exact ⟨rfl, rfl⟩
  · rw [(hrun 1).2.1]; decide
  · intro k h1 h6
    rw [(hrun k).2.1]
    interval_cases k <;> decide
  · rw [hall.2.1]; decide

/-! ## No bursts of jiggle attempts -/

/-- After the deadline was set from the time `t`, the passes that read a time
from `t` to less than `t + 120000` make no attempt and leave the deadline
alone. -/
theorem attempts_none (f : CHSV → CRGB) (t : Nat) (js : List TickInput) (s : State)
    (hs : s.nextMouseMs = add32 t MOUSE_PERIOD_MS)
    (hjs : ∀ j ∈ js, t ≤ j.tNow ∧ j.tNow < t + 120000) :
    attempts f s js = 0 ∧ (runLoop f s js).nextMouseMs = add32 t MOUSE_PERIOD_MS := by
  induction js generalizing s with
  | nil => exact ⟨rfl, hs⟩
  | cons j js ih =>
    obtain ⟨h1, h2⟩ := hjs j (List.mem_cons_self _ _)
    have hnot : ¬ 0 ≤ toInt32 (sub32 j.tNow s.nextMouseMs) := by
      have h := (clock_tests t (j.tNow - t) (by omega)).2.2.2.1
      have e : t + (j.tNow - t) = j.tNow := by omega
      rw [e, sub32_mod_left] at h
      rw [hs, h]; omega
    have hnext : (loop f j s).nextMouseMs = add32 t MOUSE_PERIOD_MS := by
      rw [loop_nextMouseMs, if_neg hnot, hs]
    obtain ⟨g1, g2⟩ := ih (loop f j s) hnext (fun x hx => hjs x (List.mem_cons_of_mem _ hx))
    refine ⟨?_, by rw [runLoop_cons]; exact g2⟩
    simp only [attempts, deadlineDue, hnot, decide_False, Bool.false_eq_true, if_false, g1]

/-- C19: in a run of passes of `loop`, let the pass `i0` read the time `t`,
`late` ms (less than 2^31) after the deadline: the deadline fires in that
pass, however many periods `late` spans.  Then in the following passes, as
long as they read times from `t` to less than `t + 120000`, the deadline does
not fire: whatever their number, the deadline stays `t + 120000`, the run from
`i0` on makes exactly one attempt, and every prefix of it makes exactly one
attempt; so two attempts are at least `MOUSE_PERIOD_MS` apart and a late
pass makes one attempt, not one per missed period. -/
theorem no_attempt_bursts (f : CHSV → CRGB) (s : State) (i0 : TickInput)
    (js : List TickInput) (t late : Nat)
    (hlate : late < 2147483648)
    (hdead : (s.nextMouseMs + late) % U32 = t % U32)
    (ht : i0.tNow = t)
    (hjs : ∀ j ∈ js, t ≤ j.tNow ∧ j.tNow < t + 120000) :
    deadlineDue i0 s = true ∧
    (loop f i0 s).nextMouseMs = add32 t MOUSE_PERIOD_MS ∧
    (∀ j ∈ js, ∀ s1 : State, s1.nextMouseMs = add32 t MOUSE_PERIOD_MS →
      deadlineDue j s1 = false) ∧
    (∀ k, attempts f s (i0 :: js.take k) = 1 ∧
      (runLoop f s (i0 :: js.take k)).nextMouseMs = add32 t MOUSE_PERIOD_MS) ∧
    attempts f s (i0 :: js) = 1 := by
  have hdue : 0 ≤ toInt32 (sub32 i0.tNow s.nextMouseMs) := by
    rw [ht, ← not_lt, toInt32_neg_iff]
    revert hdead
    unfold sub32 U32
    omega
  have hnext : (loop f i0 s).nextMouseMs = add32 t MOUSE_PERIOD_MS := by
    rw [loop_nextMouseMs, if_pos hdue, ht]
  have hd : deadlineDue i0 s = true := by simp [deadlineDue, hdue]
  have hk : ∀ ks : List TickInput, (∀ j ∈ ks, t ≤ j.tNow ∧ j.tNow < t + 120000) →
      attempts f s (i0 :: ks) = 1 ∧
      (runLoop f s (i0 :: ks)).nextMouseMs = add32 t MOUSE_PERIOD_MS := by
    intro ks hks
    obtain ⟨g1, g2⟩ := attempts_none f t ks (loop f i0 s) hnext hks
    exact ⟨by simp only [attempts, hd, if_true, g1], by rw [runLoop_cons]; exact g2⟩
  refine ⟨hd, hnext, ?_, fun k => hk _ (fun j hj => hjs j (List.mem_of_mem_take hj)),
    (hk js hjs).1⟩
  intro j hj s1 hs1
  obtain ⟨h1, h2⟩ := hjs j hj
  have h := (clock_tests t (j.tNow - t) (by omega)).2.2.2.1
  have e : t + (j.tNow - t) = j.tNow := by omega
  rw [e, sub32_mod_left] at h
  simp only [deadlineDue, hs1, h, decide_eq_false_iff_not]
  omega

/-- C19 at a concrete run: booted at 0, a first pass at 500000, more than four
periods after the deadline 120000, then passes at 500005 and 619999. -/
theorem no_attempt_bursts_witness :
    attempts hsvCopy (setup 0 State.boot)
      [TickInput.uniform 500000 true true true, TickInput.uniform 500005 true true true,
       TickInput.uniform 619999 true true true] = 1 :=
  (no_attempt_bursts hsvCopy (setup 0 State.boot) (TickInput.uniform 500000 true true true)
    [TickInput.uniform 500005 true true true, TickInput.uniform 619999 true true true]
    500000 380000 (by decide) (by decide) rfl (by decide)).2.2.2.2

/-! ## Same-pass visibility of overlay requests -/

theorem overlay_visible (a b : Nat) (h : sub32 b a < 1000) :
    toInt32 (sub32 b (add32 a LED_EVENT_MS)) < 0 := by
  rw [toInt32_neg_iff]
  revert h
  unfold sub32 add32 LED_EVENT_MS U32
  omega

theorem sub32_triangle (a b c : Nat) : sub32 c a ≤ sub32 b a + sub32 c b := by
  unfold sub32 U32
  omega

theorem clockAdvance_bounds (i : TickInput) :
    sub32 i.tLed i.tKbLed ≤ clockAdvance i.clockReads ∧
    sub32 i.tLed i.tArmLed ≤ clockAdvance i.clockReads := by
  simp only [TickInput.clockReads, clockAdvance]
  have h1 := sub32_triangle i.tKbLed i.tKbStamp i.tLed
  have h2 := sub32_triangle i.tKbStamp i.tNow i.tLed
  have h3 := sub32_triangle i.tNow i.tArmLed i.tLed
  have h4 := sub32_triangle i.tArmLed i.tArm i.tLed
  have h5 := sub32_triangle i.tArm i.tJiggle i.tLed
  constructor <;> omega

/-- The overlay fields before `updateLed` in a pass of `loop` are those left
by the mouse part of the pass. -/
theorem updateMouseJiggle_led (c p : Bool) (t : Nat) (s : State) :
    (updateMouseJiggle c p t s).ledOverride = s.ledOverride ∧
    (updateMouseJiggle c p t s).ledColor = s.ledColor ∧
    (updateMouseJiggle c p t s).ledUntil = s.ledUntil := by
  refine ⟨?_, ?_, ?_⟩ <;> rw [updateMouseJiggle_frame]

/-- C14: in a pass of `loop` during which the clock advances by less than
1000 ms in all: when the deadline fires and `startMouseJiggle` finds the
transport connected and the disable input not asserted, the frame shown by
`updateLed` at the end of that pass is solid blue, whether or not a text was
sent in the pass; when a press edge is pending, more than 1000 ms have
elapsed since `millis_buf` and the transport is connected, so that the text
is sent, and no arming occurs in the pass, the frame is solid red.  In both
cases the frame is neither the idle gradient nor a colour requested
earlier. -/
theorem same_tick_overlay (f : CHSV → CRGB) (i : TickInput) (s : State)
    (hclk : clockAdvance i.clockReads < 1000) :
    ((0 ≤ toInt32 (sub32 i.tNow s.nextMouseMs) ∧ i.armConnected = true ∧
        mouseDisabled i.armPin = false) →
      (loop f i s).leds = List.replicate 25 CRGB.Blue ∧
      (loop f i s).out.getLast? = some (Event.flush (List.replicate 25 CRGB.Blue))) ∧
    (((updateButton i.btnPin i.tButton s).pressedEdge = true ∧
        1000 < sub32 i.tCooldown s.millis_buf ∧ i.kbConnected = true) →
      ¬ (0 ≤ toInt32 (sub32 i.tNow s.nextMouseMs) ∧ i.armConnected = true ∧
        mouseDisabled i.armPin = false) →
      (loop f i s).leds = List.replicate 25 CRGB.Red ∧
      (loop f i s).out.getLast? = some (Event.flush (List.replicate 25 CRGB.Red))) := by
  obtain ⟨hk, ha⟩ := clockAdvance_bounds i
  have hnext : (loopKeyboard i (updateButton i.btnPin i.tButton s)).nextMouseMs
      = s.nextMouseMs := by
    rw [loopKeyboard_frame, updateButton_frame]
  have hsolid : ∀ (s4 : State) (c : CRGB) (a : Nat), s4.ledOverride = true → s4.ledColor = c →
      s4.ledUntil = add32 a LED_EVENT_MS → sub32 i.tLed a < 1000 →
      (updateLed f i.tLed i.tGradient s4).leds = List.replicate 25 c ∧
      (updateLed f i.tLed i.tGradient s4).out.getLast? =
        some (Event.flush (List.replicate 25 c)) := by
    intro s4 c a h1 h2 h3 h4
    rw [updateLed_solid f _ _ s4 h1 (by rw [h3]; exact overlay_visible a i.tLed h4), h2]
    simp
  constructor
  · rintro ⟨hdue, hc, hp⟩
    unfold loop
    simp only []
    obtain ⟨l1, l2, l3⟩ := updateMouseJiggle_led i.jigConnected i.jigPin i.tJiggle
      (loopMouse i (loopKeyboard i (updateButton i.btnPin i.tButton s)))
    apply hsolid _ CRGB.Blue i.tArmLed
    · rw [l1, loopMouse_due _ _ (by rw [hnext]; exact hdue), startMouseJiggle_ok _ _ _ _ _ hc hp]
    · rw [l2, loopMouse_due _ _ (by rw [hnext]; exact hdue), startMouseJiggle_ok _ _ _ _ _ hc hp]
    · rw [l3, loopMouse_due _ _ (by rw [hnext]; exact hdue), startMouseJiggle_ok _ _ _ _ _ hc hp]
    · omega
  · rintro ⟨hedge, hcool, hconn⟩ harm
    have hkb : loopKeyboard i (updateButton i.btnPin i.tButton s) =
        { doKeyboardAction i.kbConnected i.tKbLed
            { updateButton i.btnPin i.tButton s with pressedEdge := false } with
          millis_buf := i.tKbStamp % U32 } :=
      loopKeyboard_pass i _ hedge (by rw [updateButton_millis_buf]; exact hcool)
    have hm : loopMouse i (loopKeyboard i (updateButton i.btnPin i.tButton s)) =
        { loopKeyboard i (updateButton i.btnPin i.tButton s) with
          nextMouseMs := (loopMouse i (loopKeyboard i
            (updateButton i.btnPin i.tButton s))).nextMouseMs } := by
      by_cases hdue : 0 ≤ toInt32 (sub32 i.tNow s.nextMouseMs)
      · have hint : i.armConnected = false ∨ mouseDisabled i.armPin = true := by
          cases hc : i.armConnected <;> cases hp : mouseDisabled i.armPin <;> simp_all
        rw [loopMouse_due _ _ (by rw [hnext]; exact hdue), startMouseJiggle_fail _ _ _ _ _ hint]
      · rw [loopMouse_not_due _ _ (by rw [hnext]; exact hdue)]
    unfold loop
    simp only []
    obtain ⟨l1, l2, l3⟩ := updateMouseJiggle_led i.jigConnected i.jigPin i.tJiggle
      (loopMouse i (loopKeyboard i (updateButton i.btnPin i.tButton s)))
    apply hsolid _ CRGB.Red i.tKbLed
    · rw [l1, hm, hkb]; simp [doKeyboardAction, setLedEvent, hconn]
    · rw [l2, hm, hkb]; simp [doKeyboardAction, setLedEvent, hconn]
    · rw [l3, hm, hkb]; simp [doKeyboardAction, setLedEvent, hconn]
    · omega

/-- C14 at a concrete pass: booted at 0, pressed from 1001 on; the pass that
starts at 1041 sends the text while the clock advances by 200 ms. -/
theorem same_tick_overlay_witness :
    (loop hsvCopy
      { TickInput.uniform 1041 false true true with
        tKbStamp := 1241, tNow := 1241, tArmLed := 1241, tArm := 1241, tJiggle := 1241,
        tLed := 1241, tGradient := 1241 }
      (loop hsvCopy (TickInput.uniform 1001 false true true) (setup 0 State.boot))).leds
      = List.replicate 25 CRGB.Red :=
  ((same_tick_overlay hsvCopy
      { TickInput.uniform 1041 false true true with
        tKbStamp := 1241, tNow := 1241, tArmLed := 1241, tArm := 1241, tJiggle := 1241,
        tLed := 1241, tGradient := 1241 }
      (loop hsvCopy (TickInput.uniform 1001 false true true) (setup 0 State.boot))
      (by decide)).2 (by decide) (by decide)).1

/-! ## Time gating of the jiggle steps -/

/-- A call of `updateMouseJiggle` that emits a move emits one move, 25 ms or
more after the step timestamp, and stamps the time read. -/
theorem updateMouseJiggle_gate (c p : Bool) (t : Nat) (s : State)
    (h : moves (updateMouseJiggle c p t s).out ≠ moves s.out) :
    s.jiggle ≠ JiggleState.Idle ∧ 25 ≤ sub32 t s.jiggleMs ∧
    (updateMouseJiggle c p t s).jiggleMs = t % U32 ∧
    (moves (updateMouseJiggle c p t s).out).length = (moves s.out).length + 1 := by
  rcases updateMouseJiggle_cases c p t s with h1 | ⟨_, _, h1⟩ | ⟨h0, _, _, ht, hms, _, hout⟩
  · rw [h1] at h; exact absurd rfl h
  · rw [h1] at h; exact absurd rfl h
  · refine ⟨h0, ht, hms, ?_⟩
    rw [hout, moves_append, moves_map_move]
    cases hj : s.jiggle <;> simp_all [cycleIndex, jiggleMoves]

theorem updateMouseJiggle_jiggleMs (c p : Bool) (t : Nat) (s : State)
    (h : moves (updateMouseJiggle c p t s).out = moves s.out) :
    (updateMouseJiggle c p t s).jiggle = JiggleState.Idle ∨
    (updateMouseJiggle c p t s).jiggleMs = s.jiggleMs := by
  rcases updateMouseJiggle_cases c p t s with h1 | ⟨_, _, h1⟩ | ⟨h0, _, _, _, _, _, hout⟩
  · right; rw [h1]
  · left; rw [h1]
  · exfalso
    rw [hout, moves_append, moves_map_move] at h
    have := congrArg List.length h
    cases hj : s.jiggle <;> simp_all [cycleIndex, jiggleMoves]

/-- One pass of `loop`, for a step timestamp `σ` that the reads of the pass
do not precede: the pass emits a move only 25 ms or more after `σ`, and the
step timestamp it leaves is a time `σ'` from `σ` to the time read at line 145,
which is that time itself when a move is emitted. -/
theorem loop_gate (f : CHSV → CRGB) (i : TickInput) (s : State) (σ : Nat)
    (hs : s.jiggle ≠ JiggleState.Idle → s.jiggleMs = σ % U32)
    (h1 : σ ≤ i.tArm) (h2 : i.tArm ≤ i.tJiggle) :
    (moves (loop f i s).out ≠ moves s.out → σ + 25 ≤ i.tJiggle ∧
      ((loop f i s).jiggle ≠ JiggleState.Idle → (loop f i s).jiggleMs = i.tJiggle % U32)) ∧
    (moves (loop f i s).out = moves s.out → ∃ σ', σ ≤ σ' ∧ σ' ≤ i.tJiggle ∧
      ((loop f i s).jiggle ≠ JiggleState.Idle → (loop f i s).jiggleMs = σ' % U32)) := by
  obtain ⟨_, a2, a3, a4⟩ := loop_agree f i s s (mouseAgree_refl s)
  rw [a2, a3, a4]
  unfold stepMouse
  -- the state after the mouse deadline and its stamp
  have hmid : ∃ σm, σ ≤ σm ∧ σm ≤ i.tJiggle ∧
      ((loopMouse i s).jiggle ≠ JiggleState.Idle → (loopMouse i s).jiggleMs = σm % U32) ∧
      moves (loopMouse i s).out = moves s.out := by
    by_cases hdue : 0 ≤ toInt32 (sub32 i.tNow s.nextMouseMs)
    · rw [loopMouse_due i s hdue]
      by_cases hen : i.armConnected = true ∧ mouseDisabled i.armPin = false
      · rw [startMouseJiggle_ok _ _ _ _ _ hen.1 hen.2]
        exact ⟨i.tArm, h1, h2, fun _ => rfl, rfl⟩
      · have hint : i.armConnected = false ∨ mouseDisabled i.armPin = true := by
          cases hc : i.armConnected <;> cases hp : mouseDisabled i.armPin <;> simp_all
        rw [startMouseJiggle_fail _ _ _ _ _ hint]
        exact ⟨σ, le_refl _, by omega, hs, rfl⟩
    · rw [loopMouse_not_due i s hdue]
      exact ⟨σ, le_refl _, by omega, hs, rfl⟩
  obtain ⟨σm, m1, m2, m3, m4⟩ := hmid
  rw [← m4]
  constructor
  · intro hmv
    obtain ⟨g0, g1, g2, _⟩ := updateMouseJiggle_gate _ _ _ _ hmv
    rw [m3 g0, sub32_mod_right] at g1
    have := sub32_le_sub i.tJiggle σm m2
    exact ⟨by omega, fun _ => g2⟩
  · intro hmv
    rcases updateMouseJiggle_jiggleMs _ _ _ _ hmv with h | h
    · exact ⟨σm, m1, m2, fun hne => absurd h hne⟩
    · refine ⟨σm, m1, m2, fun hne => ?_⟩
      rw [h]
      apply m3
      intro hidle
      apply hne
      rw [updateMouseJiggle_idle _ _ _ _ hidle]; exact hidle

/-- In a run of passes with a monotone clock, every move is emitted 25 ms or
more after the previous one, and after the step timestamp. -/
theorem moveTimes_chain (f : CHSV → CRGB) (ticks : List TickInput) (s : State) (τ σ : Nat)
    (hτ : τ ≤ σ)
    (hs : s.jiggle ≠ JiggleState.Idle → s.jiggleMs = σ % U32)
    (hmono : List.Chain (· ≤ ·) σ (jiggleReads ticks)) :
    List.Chain (fun a b => a + 25 ≤ b) τ (moveTimes f s ticks) := by
  induction ticks generalizing s τ σ with
  | nil => exact List.Chain.nil
  | cons i is ih =>
    simp only [jiggleReads, List.chain_cons] at hmono
    obtain ⟨h1, h2, hrest⟩ := hmono
    obtain ⟨g1, g2⟩ := loop_gate f i s σ hs h1 h2
    simp only [moveTimes]
    by_cases hmv : moves (loop f i s).out = moves s.out
    · rw [if_pos hmv, List.nil_append]
      obtain ⟨σ', s1, s2, s3⟩ := g2 hmv
      have hrest' : List.Chain (· ≤ ·) σ' (jiggleReads is) := by
        cases hj : jiggleReads is with
        | nil => exact List.Chain.nil
        | cons a l =>
          rw [hj] at hrest
          simp only [List.chain_cons] at hrest ⊢
          exact ⟨by omega, hrest.2⟩
      exact ih (loop f i s) τ σ' (by omega) s3 hrest'
    · rw [if_neg hmv, List.singleton_append]
      obtain ⟨k1, k2⟩ := g1 hmv
      exact List.Chain.cons (by omega) (ih (loop f i s) i.tJiggle i.tJiggle (le_refl _) k2 hrest)

set_option maxRecDepth 100000 in
/-- C17, as stated, fails for a pass that starts less than 25 ms after arming
while the clock reaches 25 ms before line 145.  Booted at 0, the button
pressed from 119970 on, the sequence is armed by the pass at 120000.  The
next pass starts at 120020, 20 ms after arming, and sends the text; with the
clock at 120030 from line 198 on, `updateMouseJiggle` reads 120030 and the Up
move is emitted in that pass. -/
theorem move_in_tick_started_early :
    (runLoop hsvCopy (setup 0 State.boot)
      [TickInput.uniform 119970 false true true,
       TickInput.uniform 120000 false true true]).jiggle = JiggleState.Up ∧
    (runLoop hsvCopy (setup 0 State.boot)
      [TickInput.uniform 119970 false true true,
       TickInput.uniform 120000 false true true]).jiggleMs = 120000 ∧
    sub32 120020 120000 < 25 ∧
    moves (runLoop hsvCopy (setup 0 State.boot)
      [TickInput.uniform 119970 false true true,
       TickInput.uniform 120000 false true true]).out = [] ∧
    sentTexts (runLoop hsvCopy (setup 0 State.boot)
      [TickInput.uniform 119970 false true true,
       TickInput.uniform 120000 false true true,
       { TickInput.uniform 120020 false true true with
         tKbStamp := 120030, tNow := 120030, tArmLed := 120030, tArm := 120030,
         tJiggle := 120030, tLed := 120030, tGradient := 120030 }]).out = [TEXT_TO_TYPE] ∧
    moves (runLoop hsvCopy (setup 0 State.boot)
      [TickInput.uniform 119970 false true true,
       TickInput.uniform 120000 false true true,
       { TickInput.uniform 120020 false true true with
         tKbStamp := 120030, tNow := 120030, tArmLed := 120030, tArm := 120030,
         tJiggle := 120030, tLed := 120030, tGradient := 120030 }]).out = [(0, -10)] := by
  decide

/-- C17 (amended): a call of `updateMouseJiggle` emits at most one move, and
emits one only when 25 ms or more have elapsed, on the 32-bit counter, between
the step timestamp and the time it reads at line 145.  So, for every run of
passes of `loop` with a monotone clock, from a state whose step timestamp is
the time `tA` (the arming time): the times read at line 145 by the passes
that emit a move are each 25 ms or more after the previous one, the first
being 25 ms or more after `tA`, also when the sequence is re-armed in between.
No move is emitted in a pass whose read at line 145 is less than 25 ms after
the step timestamp, be it the one the pass starts with (no arming in the pass)
or the arming time of the pass; the time at which the pass starts does not
matter. -/
theorem jiggle_steps_time_gated (f : CHSV → CRGB) (s : State) (ticks : List TickInput)
    (tA : Nat)
    (harm : s.jiggle ≠ JiggleState.Idle → s.jiggleMs = tA % U32)
    (hmono : List.Chain (· ≤ ·) tA (jiggleReads ticks)) :
    (∀ (c p : Bool) (t : Nat) (s1 : State),
      (moves (updateMouseJiggle c p t s1).out).length ≤ (moves s1.out).length + 1 ∧
      (moves (updateMouseJiggle c p t s1).out ≠ moves s1.out → 25 ≤ sub32 t s1.jiggleMs)) ∧
    List.Chain (fun a b => a + 25 ≤ b) tA (moveTimes f s ticks) ∧
    (∀ i : TickInput, ¬ 0 ≤ toInt32 (sub32 i.tNow s.nextMouseMs) →
      sub32 i.tJiggle s.jiggleMs < 25 → moves (loop f i s).out = moves s.out) ∧
    (∀ i : TickInput, 0 ≤ toInt32 (sub32 i.tNow s.nextMouseMs) → i.armConnected = true →
      mouseDisabled i.armPin = false →
      sub32 i.tJiggle i.tArm < 25 → moves (loop f i s).out = moves s.out) := by
  refine ⟨?_, moveTimes_chain f ticks s tA tA (le_refl _) harm hmono, ?_, ?_⟩
  · intro c p t s1
    by_cases h : moves (updateMouseJiggle c p t s1).out = moves s1.out
    · rw [h]; exact ⟨by omega, fun hne => absurd rfl hne⟩
    · obtain ⟨_, g1, _, g3⟩ := updateMouseJiggle_gate c p t s1 h
      exact ⟨by omega, fun _ => g1⟩
  · intro i hdue ht
    rw [(loop_agree f i s s (mouseAgree_refl s)).2.2.2]
    unfold stepMouse
    rw [loopMouse_not_due i s hdue]
    by_contra hne
    have := (updateMouseJiggle_gate _ _ _ _ hne).2.1
    omega
  · intro i hdue hc hp ht
    rw [(loop_agree f i s s (mouseAgree_refl s)).2.2.2]
    unfold stepMouse
    rw [loopMouse_due i s hdue, startMouseJiggle_ok _ _ _ _ _ hc hp]
    by_contra hne
    have h := (updateMouseJiggle_gate _ _ _ _ hne).2.1
    simp only [sub32_mod_right] at h
    omega

/-- C17 (amended) at a concrete run: armed at 120000 from boot, then passes at
120010, 120030, 120040 and 120060. -/
theorem jiggle_steps_time_gated_witness :
    List.Chain (fun a b => a + 25 ≤ b) 120000
      (moveTimes hsvCopy
        (loop hsvCopy (TickInput.uniform 120000 true true true) (setup 0 State.boot))
        [TickInput.uniform 120010 true true true, TickInput.uniform 120030 true true true,
         TickInput.uniform 120040 true true true, TickInput.uniform 120060 true true true]) :=
  (jiggle_steps_time_gated hsvCopy
    (loop hsvCopy (TickInput.uniform 120000 true true true) (setup 0 State.boot))
    [TickInput.uniform 120010 true true true, TickInput.uniform 120030 true true true,
     TickInput.uniform 120040 true true true, TickInput.uniform 120060 true true true]
    120000 (fun _ => by decide)
    (by simp [jiggleReads, TickInput.uniform])).2.1

/-! ## At most one consumed edge per press -/

/-- The button fields after a pass of `loop` are those left by `updateButton`,
but for `pressedEdge`, which is false. -/
theorem loop_button (f : CHSV → CRGB) (i : TickInput) (s : State) :
    (loop f i s).lastRaw = (updateButton i.btnPin i.tButton s).lastRaw ∧
    (loop f i s).stable = (updateButton i.btnPin i.tButton s).stable ∧
    (loop f i s).lastChangeMs = (updateButton i.btnPin i.tButton s).lastChangeMs ∧
    (loop f i s).pressedEdge = false := by
  have hk : (loopKeyboard i (updateButton i.btnPin i.tButton s)).pressedEdge = false := by
    unfold loopKeyboard doKeyboardAction setLedEvent
    simp only []
    split_ifs with h1 h2 h3
    · rfl
    · rfl
    · rfl
    · simpa using h1
  unfold loop
  simp only []
  refine ⟨?_, ?_, ?_, ?_⟩
  · rw [updateLed_frame, updateMouseJiggle_frame, loopMouse_frame, loopKeyboard_frame]
  · rw [updateLed_frame, updateMouseJiggle_frame, loopMouse_frame, loopKeyboard_frame]
  · rw [updateLed_frame, updateMouseJiggle_frame, loopMouse_frame, loopKeyboard_frame]
  · rw [updateLed_frame, updateMouseJiggle_frame, loopMouse_frame]; exact hk

theorem runLoop_append (f : CHSV → CRGB) (s : State) (xs ys : List TickInput) :
    runLoop f s (xs ++ ys) = runLoop f (runLoop f s xs) ys := by
  simp [runLoop, List.foldl_append]

theorem runLoop_pressedEdge (f : CHSV → CRGB) (ticks : List TickInput) (s : State)
    (h : s.pressedEdge = false) : (runLoop f s ticks).pressedEdge = false := by
  induction ticks generalizing s with
  | nil => exact h
  | cons i is ih => rw [runLoop_cons]; exact ih _ (loop_button f i s).2.2.2

/-- A consumed edge, with no edge pending at the start of the pass, is a
change of the stable level from released to pressed in that pass. -/
theorem edgeConsumed_stable (f : CHSV → CRGB) (i : TickInput) (s : State)
    (h0 : s.pressedEdge = false) (h : edgeConsumed i s = true) :
    s.stable = true ∧ (loop f i s).stable = false := by
  unfold edgeConsumed at h
  rw [updateButton_pressedEdge, h0] at h
  simp only [Bool.false_or, Bool.and_eq_true, Bool.not_eq_true'] at h
  exact ⟨h.1, by rw [(loop_button f i s).2.1]; exact h.2⟩

theorem updateButton_stable_cases (p : Bool) (t : Nat) (s : State) :
    (updateButton p t s).stable = s.stable ∨ (updateButton p t s).stable = p := by
  by_cases h : (updateButton p t s).stable = s.stable
  · exact Or.inl h
  · right
    by_cases hp : p = s.lastRaw
    · by_cases hw : s.stable = s.lastRaw ∨ sub32 t s.lastChangeMs < DEBOUNCE_MS
      · rw [updateButton_keep p t s hp hw] at h; exact absurd rfl h
      · subst hp
        unfold updateButton at h ⊢
        cases hl : s.lastRaw <;> cases hs : s.stable <;> simp_all
    · rw [updateButton_flip p t s hp] at h; exact absurd rfl h

/-- With the button held down, a pressed stable level stays pressed and no
edge is consumed. -/
theorem held_pressed (f : CHSV → CRGB) (ticks : List TickInput) (s : State)
    (hheld : ∀ i ∈ ticks, i.btnPin = false)
    (h0 : s.pressedEdge = false) (hs : s.stable = false) :
    edgesConsumed f s ticks = 0 ∧ (runLoop f s ticks).stable = false := by
  induction ticks generalizing s with
  | nil => exact ⟨rfl, hs⟩
  | cons i is ih =>
    have hi := hheld i (List.mem_cons_self _ _)
    have hst : (updateButton i.btnPin i.tButton s).stable = false := by
      rcases updateButton_stable_cases i.btnPin i.tButton s with h | h
      · rw [h, hs]
      · rw [h, hi]
    have hno : edgeConsumed i s = false := by
      unfold edgeConsumed
      rw [updateButton_pressedEdge, h0, hs]; rfl
    obtain ⟨b1, b2, _, b4⟩ := loop_button f i s
    obtain ⟨g1, g2⟩ := ih (loop f i s) (fun j hj => hheld j (List.mem_cons_of_mem _ hj)) b4
      (by rw [b2]; exact hst)
    refine ⟨?_, by rw [runLoop_cons]; exact g2⟩
    simp only [edgesConsumed, hno, Bool.false_eq_true, if_false, g1]

/-- With the button held down from a released stable level, at most one edge
is consumed, and one is consumed exactly when the stable level ends
pressed. -/
theorem held_released (f : CHSV → CRGB) (ticks : List TickInput) (s : State)
    (hheld : ∀ i ∈ ticks, i.btnPin = false)
    (h0 : s.pressedEdge = false) (hs : s.stable = true) :
    edgesConsumed f s ticks ≤ 1 ∧
    (edgesConsumed f s ticks = 1 ↔ (runLoop f s ticks).stable = false) := by
  induction ticks generalizing s with
  | nil => simp [edgesConsumed, runLoop, hs]
  | cons i is ih =>
    have hi := hheld i (List.mem_cons_self _ _)
    have hrest : ∀ j ∈ is, j.btnPin = false := fun j hj => hheld j (List.mem_cons_of_mem _ hj)
    obtain ⟨b1, b2, _, b4⟩ := loop_button f i s
    rw [runLoop_cons]
    simp only [edgesConsumed]
    by_cases hst : (updateButton i.btnPin i.tButton s).stable = true
    · have hno : edgeConsumed i s = false := by
        unfold edgeConsumed
        rw [updateButton_pressedEdge, h0, hs, hst]; rfl
      obtain ⟨g1, g2⟩ := ih (loop f i s) hrest b4 (by rw [b2]; exact hst)
      simp only [hno, Bool.false_eq_true, if_false, Nat.zero_add]
      exact ⟨g1, g2⟩
    · have hst' : (updateButton i.btnPin i.tButton s).stable = false := by
        simpa using hst
      have hyes : edgeConsumed i s = true := by
        unfold edgeConsumed
        rw [updateButton_pressedEdge, h0, hs, hst']; rfl
      obtain ⟨g1, g2⟩ := held_pressed f is (loop f i s) hrest b4 (by rw [b2]; exact hst')
      simp only [hyes, if_true, g1]
      exact ⟨le_refl _, by simp [g2]⟩

/-- With the button held down, once the raw level is pressed with the stamp
`t1`, a pass that reads a time 40 ms or more after `t1` leaves the stable
level pressed, and so does the rest of the run. -/
theorem held_registers (f : CHSV → CRGB) (ticks : List TickInput) (s : State) (t1 : Nat)
    (hheld : ∀ i ∈ ticks, i.btnPin = false)
    (h0 : s.pressedEdge = false) (hraw : s.lastRaw = false)
    (hstamp : s.lastChangeMs % U32 = t1 % U32)
    (hlong : ∃ j ∈ ticks, DEBOUNCE_MS ≤ sub32 j.tButton t1) :
    (runLoop f s ticks).stable = false := by
  induction ticks generalizing s with
  | nil => obtain ⟨j, hj, _⟩ := hlong; cases hj
  | cons i is ih =>
    have hi := hheld i (List.mem_cons_self _ _)
    have hrest : ∀ j ∈ is, j.btnPin = false := fun j hj => hheld j (List.mem_cons_of_mem _ hj)
    obtain ⟨b1, b2, b3, b4⟩ := loop_button f i s
    have hp : i.btnPin = s.lastRaw := by rw [hi, hraw]
    have hlr : (loop f i s).lastRaw = false := by rw [b1, updateButton_lastRaw, hi]
    have hlc : (loop f i s).lastChangeMs % U32 = t1 % U32 := by
      rw [b3, updateButton_lastChangeMs, if_pos hp]; exact hstamp
    rw [runLoop_cons]
    by_cases hnow : DEBOUNCE_MS ≤ sub32 i.tButton t1
    · have hst : (loop f i s).stable = false := by
        rw [b2]
        have hd : DEBOUNCE_MS ≤ sub32 i.tButton s.lastChangeMs := by
          rw [← sub32_mod_right, hstamp, sub32_mod_right]; exact hnow
        unfold updateButton
        cases hs : s.stable <;> simp [hi, hraw, hs, hd]
      exact (held_pressed f is _ hrest b4 hst).2
    · apply ih (loop f i s) hrest b4 hlr hlc
      obtain ⟨j, hj, hjd⟩ := hlong
      rcases List.mem_cons.1 hj with h | h
      · subst h; exact absurd hjd hnow
      · exact ⟨j, h, hjd⟩

/-- With the button held down, once the raw level is pressed with the stamp
`t1` and the stable level still released, passes that all read a time less
than 40 ms after `t1` consume no edge and leave the stable level released. -/
theorem held_waiting (f : CHSV → CRGB) (ticks : List TickInput) (s : State) (t1 : Nat)
    (hheld : ∀ i ∈ ticks, i.btnPin = false)
    (h0 : s.pressedEdge = false) (hraw : s.lastRaw = false) (hs : s.stable = true)
    (hstamp : s.lastChangeMs % U32 = t1 % U32)
    (hshort : ∀ j ∈ ticks, sub32 j.tButton t1 < DEBOUNCE_MS) :
    edgesConsumed f s ticks = 0 ∧ (runLoop f s ticks).stable = true := by
  induction ticks generalizing s with
  | nil => exact ⟨rfl, hs⟩
  | cons i is ih =>
    have hi := hheld i (List.mem_cons_self _ _)
    have hrest : ∀ j ∈ is, j.btnPin = false := fun j hj => hheld j (List.mem_cons_of_mem _ hj)
    obtain ⟨b1, b2, b3, b4⟩ := loop_button f i s
    have hp : i.btnPin = s.lastRaw := by rw [hi, hraw]
    have hd : sub32 i.tButton s.lastChangeMs < DEBOUNCE_MS := by
      rw [← sub32_mod_right, hstamp, sub32_mod_right]
      exact hshort i (List.mem_cons_self _ _)
    have hk := updateButton_keep i.btnPin i.tButton s hp (Or.inr hd)
    rw [hk] at b1 b2 b3
    have hno : edgeConsumed i s = false := by
      unfold edgeConsumed
      rw [hk]; exact h0
    obtain ⟨g1, g2⟩ := ih (loop f i s) hrest b4 (by rw [b1]; exact hraw) (by rw [b2]; exact hs)
      (by rw [b3]; exact hstamp) (fun j hj => hshort j (List.mem_cons_of_mem _ hj))
    refine ⟨?_, by rw [runLoop_cons]; exact g2⟩
    simp only [edgesConsumed, hno, Bool.false_eq_true, if_false, g1]

/-- With the button held down from a released level, raw and stable, the
number of consumed edges is one when a pass after the first reads a time
40 ms or more after the first pass, and zero otherwise. -/
theorem held_from_release (f : CHSV → CRGB) (i1 : TickInput) (rest : List TickInput)
    (s : State) (hheld : ∀ i ∈ i1 :: rest, i.btnPin = false)
    (h0 : s.pressedEdge = false) (hs : s.stable = true) (hraw : s.lastRaw = true) :
    (edgesConsumed f s (i1 :: rest) = 1 ↔
      ∃ j ∈ rest, DEBOUNCE_MS ≤ sub32 j.tButton i1.tButton) ∧
    (edgesConsumed f s (i1 :: rest) = 0 ↔
      ∀ j ∈ rest, sub32 j.tButton i1.tButton < DEBOUNCE_MS) := by
  obtain ⟨g1, g2⟩ := held_released f (i1 :: rest) s hheld h0 hs
  have hi1 : i1.btnPin = false := hheld i1 (List.mem_cons_self _ _)
  have hrest : ∀ j ∈ rest, j.btnPin = false := fun j hj => hheld j (List.mem_cons_of_mem _ hj)
  obtain ⟨b1, b2, b3, b4⟩ := loop_button f i1 s
  have hflip := updateButton_flip i1.btnPin i1.tButton s (by rw [hi1, hraw]; decide)
  have hlr : (loop f i1 s).lastRaw = false := by rw [b1, updateButton_lastRaw, hi1]
  have hlc : (loop f i1 s).lastChangeMs % U32 = i1.tButton % U32 := by
    rw [b3, hflip]; simp
  have hst : (loop f i1 s).stable = true := by rw [b2, hflip]; exact hs
  by_cases hex : ∃ j ∈ rest, DEBOUNCE_MS ≤ sub32 j.tButton i1.tButton
  · have h1 : edgesConsumed f s (i1 :: rest) = 1 := by
      rw [g2, runLoop_cons]
      exact held_registers f rest (loop f i1 s) i1.tButton hrest b4 hlr hlc hex
    refine ⟨⟨fun _ => hex, fun _ => h1⟩, ⟨fun h => ?_, fun h => ?_⟩⟩
    · rw [h1] at h; cases h
    · obtain ⟨j, hj, hjd⟩ := hex
      exact absurd (h j hj) (not_lt.2 hjd)
  · have hall : ∀ j ∈ rest, sub32 j.tButton i1.tButton < DEBOUNCE_MS := by
      intro j hj
      by_contra hc
      exact hex ⟨j, hj, not_lt.1 hc⟩
    have hw := (held_waiting f rest (loop f i1 s) i1.tButton hrest b4 hlr hst hlc hall).2
    rw [← runLoop_cons] at hw
    have hne : edgesConsumed f s (i1 :: rest) ≠ 1 := by
      intro h
      rw [g2, hw] at h
      cases h
    have hz : edgesConsumed f s (i1 :: rest) = 0 := by omega
    exact ⟨⟨fun h => absurd h hne, fun h => absurd h hex⟩, ⟨fun _ => hall, fun _ => hz⟩⟩

/-- C11, as stated, fails in its last clause for a button held down for a
short time: booted at 0, the button held down in the three passes at 2000,
2005 and 2010 yields no consumed edge, not exactly one. -/
theorem short_hold_no_edge :
    (∀ i ∈ [TickInput.uniform 2000 false true true, TickInput.uniform 2005 false true true,
        TickInput.uniform 2010 false true true], i.btnPin = false) ∧
    edgesConsumed hsvCopy (setup 0 State.boot)
      [TickInput.uniform 2000 false true true, TickInput.uniform 2005 false true true,
       TickInput.uniform 2010 false true true] = 0 := by
  decide

/-- C11 (amended): a pass of `loop` ends with `pressedEdge` false, whatever
the state it starts from, and sends at most one text.  In a run of passes from
a state with no edge pending (as at boot, and after any pass), between two
passes that consume a press edge there is a pass that ends with the stable
level released.  So with the button held down in every pass of a run, at most
one edge is consumed, whatever the number of passes.  From a released stable
level, exactly one is consumed when the press is registered (the stable level
ends pressed).  When the first pass of the run is the first to sample the
press, one edge is consumed as soon as a later pass reads a time 40 ms or
more after the first pass, and none before that: every initial part of the
run consumes one edge if one of its later passes reads such a time, and no
edge if all of them read a time less than 40 ms after the first pass. -/
theorem press_edge_at_most_once (f : CHSV → CRGB) (s0 : State) (ticks : List TickInput)
    (h0 : s0.pressedEdge = false) :
    (∀ (i : TickInput) (s : State), (loop f i s).pressedEdge = false ∧
      (sentTexts (loop f i s).out = sentTexts s.out ∨
        sentTexts (loop f i s).out = sentTexts s.out ++ [TEXT_TO_TYPE])) ∧
    (∀ (pre mid : List TickInput) (i j : TickInput),
      edgeConsumed i (runLoop f s0 pre) = true →
      edgeConsumed j (runLoop f s0 (pre ++ i :: mid)) = true →
      ∃ m1 k m2, mid = m1 ++ k :: m2 ∧
        (runLoop f s0 (pre ++ i :: (m1 ++ [k]))).stable = true) ∧
    ((∀ i ∈ ticks, i.btnPin = false) → s0.stable = true →
      edgesConsumed f s0 ticks ≤ 1 ∧
      (edgesConsumed f s0 ticks = 1 ↔ (runLoop f s0 ticks).stable = false) ∧
      (∀ (i1 : TickInput) (rest : List TickInput), ticks = i1 :: rest → s0.lastRaw = true →
        (∃ j ∈ rest, DEBOUNCE_MS ≤ sub32 j.tButton i1.tButton) →
        edgesConsumed f s0 ticks = 1) ∧
      (∀ (i1 : TickInput) (rest : List TickInput), ticks = i1 :: rest → s0.lastRaw = true →
        (∀ j ∈ rest, sub32 j.tButton i1.tButton < DEBOUNCE_MS) →
        edgesConsumed f s0 ticks = 0) ∧
      (∀ (i1 : TickInput) (rest : List TickInput), ticks = i1 :: rest → s0.lastRaw = true →
        ∀ k : Nat,
          (edgesConsumed f s0 (i1 :: rest.take k) = 1 ↔
            ∃ j ∈ rest.take k, DEBOUNCE_MS ≤ sub32 j.tButton i1.tButton) ∧
          (edgesConsumed f s0 (i1 :: rest.take k) = 0 ↔
            ∀ j ∈ rest.take k, sub32 j.tButton i1.tButton < DEBOUNCE_MS))) ∧
    ((∀ i ∈ ticks, i.btnPin = false) → edgesConsumed f s0 ticks ≤ 1) := by
  refine ⟨?_, ?_, ?_, ?_⟩
  · intro i s
    refine ⟨(loop_button f i s).2.2.2, ?_⟩
    rw [(loop_after_keyboard f i s).1]
    unfold loopKeyboard doKeyboardAction setLedEvent
    simp only []
    split_ifs <;> simp [sentTexts, List.filterMap_append, updateButton_out]
  · intro pre mid i j hi hj
    have hpre := runLoop_pressedEdge f pre s0 h0
    have hi' := edgeConsumed_stable f i _ hpre hi
    have hmid := runLoop_pressedEdge f (pre ++ i :: mid) s0 h0
    have hj' := (edgeConsumed_stable f j _ hmid hj).1
    rcases List.eq_nil_or_concat mid with hm | ⟨m1, k, hm⟩
    · exfalso
      rw [hm, runLoop_append, runLoop_cons] at hj'
      simp only [runLoop, List.foldl_nil] at hj' hi'
      rw [hi'.2] at hj'
      cases hj'
    · rw [List.concat_eq_append] at hm
      refine ⟨m1, k, [], hm, ?_⟩
      rw [hm] at hj'
      exact hj'
  · intro hheld hs
    obtain ⟨g1, g2⟩ := held_released f ticks s0 hheld h0 hs
    refine ⟨g1, g2, ?_, ?_, ?_⟩
    · intro i1 rest hticks hraw hlong
      rw [g2, hticks, runLoop_cons]
      have hi1 : i1.btnPin = false := hheld i1 (by rw [hticks]; exact List.mem_cons_self _ _)
      have hrest : ∀ j ∈ rest, j.btnPin = false :=
        fun j hj => hheld j (by rw [hticks]; exact List.mem_cons_of_mem _ hj)
      obtain ⟨b1, _, b3, b4⟩ := loop_button f i1 s0
      apply held_registers f rest (loop f i1 s0) i1.tButton hrest b4
      · rw [b1, updateButton_lastRaw, hi1]
      · rw [b3, updateButton_lastChangeMs, if_neg (by rw [hi1, hraw]; decide)]
        simp
      · exact hlong
    · intro i1 rest hticks hraw hshort
      rw [hticks] at hheld ⊢
      exact (held_from_release f i1 rest s0 hheld h0 hs hraw).2.2 hshort
    · intro i1 rest hticks hraw k
      rw [hticks] at hheld
      apply held_from_release f i1 (rest.take k) s0 ?_ h0 hs hraw
      intro i hi
      rcases List.mem_cons.1 hi with h | h
      · rw [h]; exact hheld i1 (List.mem_cons_self _ _)
      · exact hheld i (List.mem_cons_of_mem _ (List.mem_of_mem_take h))
  · intro hheld
    cases hs : s0.stable
    · rw [(held_pressed f ticks s0 hheld h0 hs).1]; exact Nat.zero_le _
    · exact (held_released f ticks s0 hheld h0 hs).1

/-- C11 (amended) at a concrete run: from boot, the button held down in eleven
passes, 5 ms apart from 2000 on, yields one consumed edge, and none in the
first eight passes, which end at 2035. -/
theorem press_edge_at_most_once_witness :
    edgesConsumed hsvCopy (setup 0 State.boot)
      ((List.range 11).map (fun n => TickInput.uniform (2000 + 5 * n) false true true)) = 1 ∧
    edgesConsumed hsvCopy (setup 0 State.boot)
      (TickInput.uniform 2000 false true true ::
        ((List.range 10).map
          (fun n => TickInput.uniform (2005 + 5 * n) false true true)).take 7) = 0 :=
  ⟨((press_edge_at_most_once hsvCopy (setup 0 State.boot)
      ((List.range 11).map (fun n => TickInput.uniform (2000 + 5 * n) false true true))
      rfl).2.2.1
    (by decide) rfl).2.2.1 (TickInput.uniform 2000 false true true)
      ((List.range 10).map (fun n => TickInput.uniform (2005 + 5 * n) false true true))
      (by decide) rfl ⟨TickInput.uniform 2040 false true true, by decide, by decide⟩,
   ((((press_edge_at_most_once hsvCopy (setup 0 State.boot)
      ((List.range 11).map (fun n => TickInput.uniform (2000 + 5 * n) false true true))
      rfl).2.2.1
    (by decide) rfl).2.2.2.2 (TickInput.uniform 2000 false true true)
      ((List.range 10).map (fun n => TickInput.uniform (2005 + 5 * n) false true true))
      (by decide) rfl 7).2).2 (by decide)⟩

/-! ## Passes of `loop` that request nothing -/

theorem loopKeyboard_noedge (i : TickInput) (s : State) (h : s.pressedEdge = false) :
    loopKeyboard i s = s := by
  unfold loopKeyboard
  simp [h]

/-- A quiet pass is `updateMouseJiggle` followed by `updateLed`. -/
theorem loop_passQuiet (f : CHSV → CRGB) (i : TickInput) (s : State) (h : PassQuiet i s) :
    loop f i s =
      updateLed f i.tLed i.tGradient
        (updateMouseJiggle i.jigConnected i.jigPin i.tJiggle s) := by
  obtain ⟨h1, h2, h3, h4⟩ := h
  unfold loop
  simp only []
  rw [updateButton_keep _ _ _ h1 h2, loopKeyboard_noedge _ _ h3, loopMouse_not_due _ _ h4]

theorem updateMouseJiggle_frames (c p : Bool) (t : Nat) (s : State) :
    frames (updateMouseJiggle c p t s).out = frames s.out := by
  rcases updateMouseJiggle_cases c p t s with h | ⟨_, _, h⟩ | ⟨_, _, _, _, _, _, hout⟩
  · rw [h]
  · rw [h]
  · rw [hout, frames_append]
    have : frames (((jiggleMoves.drop (cycleIndex s.jiggle)).take 1).map
        (fun m => Event.move m.1 m.2)) = [] := by
      generalize (jiggleMoves.drop (cycleIndex s.jiggle)).take 1 = l
      induction l with
      | nil => rfl
      | cons m l ih => simp [frames]
    rw [this, List.append_nil]

theorem updateLed_agree (f : CHSV → CRGB) (t g : Nat) (a b : State) (h : LedAgree a b) :
    LedAgree (updateLed f t g a) (updateLed f t g b) ∧
    (updateLed f t g a).leds = (updateLed f t g b).leds := by
  obtain ⟨h1, h2, h3, h4⟩ := h
  cases ho : a.ledOverride
  · rw [updateLed_inactive f t g a ho, updateLed_inactive f t g b (h1 ▸ ho)]
    exact ⟨⟨h1, h2, h3, by simp only [frames_append, h4]⟩, rfl⟩
  · by_cases hlt : toInt32 (sub32 t a.ledUntil) < 0
    · rw [updateLed_solid f t g a ho hlt, updateLed_solid f t g b (h1 ▸ ho) (h3 ▸ hlt)]
      exact ⟨⟨h1, h2, h3, by simp only [frames_append, h4, h2]⟩, by simp only [h2]⟩
    · rw [updateLed_expired f t g a ho (by omega),
        updateLed_expired f t g b (h1 ▸ ho) (by rw [← h3]; omega)]
      exact ⟨⟨rfl, h2, h3, by simp only [frames_append, h4]⟩, rfl⟩

theorem mouseAgree_trans {a b c : State} (h1 : MouseAgree a b) (h2 : MouseAgree b c) :
    MouseAgree a c :=
  ⟨h1.1.trans h2.1, h1.2.1.trans h2.2.1, h1.2.2.1.trans h2.2.2.1, h1.2.2.2.trans h2.2.2.2⟩

theorem ledAgree_trans {a b c : State} (h1 : LedAgree a b) (h2 : LedAgree b c) :
    LedAgree a c :=
  ⟨h1.1.trans h2.1, h1.2.1.trans h2.2.1, h1.2.2.1.trans h2.2.2.1, h1.2.2.2.trans h2.2.2.2⟩

/-- What a quiet pass leaves alone, and what it does to the mouse part and to
the overlay. -/
theorem quiet_step (f : CHSV → CRGB) (i : TickInput) (s : State) (h : PassQuiet i s) :
    CoreAgree (loop f i s) s ∧
    MouseAgree (loop f i s) (updateMouseJiggle i.jigConnected i.jigPin i.tJiggle s) ∧
    LedAgree (loop f i s) (updateLed f i.tLed i.tGradient s) ∧
    (loop f i s).leds = (updateLed f i.tLed i.tGradient s).leds := by
  rw [loop_passQuiet f i s h]
  have hled : LedAgree (updateMouseJiggle i.jigConnected i.jigPin i.tJiggle s) s := by
    obtain ⟨l1, l2, l3⟩ := updateMouseJiggle_led i.jigConnected i.jigPin i.tJiggle s
    exact ⟨l1, l2, l3, updateMouseJiggle_frames _ _ _ _⟩
  refine ⟨⟨?_, ?_, ?_, ?_, ?_, ?_, ?_⟩, ⟨?_, ?_, ?_, ?_⟩, (updateLed_agree f _ _ _ _ hled).1,
    (updateLed_agree f _ _ _ _ hled).2⟩
  · rw [updateLed_frame, updateMouseJiggle_frame]
  · rw [updateLed_frame, updateMouseJiggle_frame]
  · rw [updateLed_frame, updateMouseJiggle_frame]
  · rw [updateLed_frame, updateMouseJiggle_frame]
  · rw [updateLed_frame, updateMouseJiggle_frame]
  · rw [updateLed_frame, updateMouseJiggle_frame]
  · rw [updateLed_sentTexts, updateMouseJiggle_sentTexts]
  · rw [updateLed_frame]
  · rw [updateLed_frame]
  · rw [updateLed_frame]
  · rw [updateLed_moves]

theorem passQuiet_core (i : TickInput) (a b : State) (h : CoreAgree a b)
    (hq : PassQuiet i b) : PassQuiet i a := by
  obtain ⟨c1, c2, c3, c4, _, c6, _⟩ := h
  obtain ⟨q1, q2, q3, q4⟩ := hq
  exact ⟨by rw [c1]; exact q1, by rw [c1, c2, c3]; exact q2, by rw [c4]; exact q3,
    by rw [c6]; exact q4⟩

theorem coreAgree_trans {a b c : State} (h1 : CoreAgree a b) (h2 : CoreAgree b c) :
    CoreAgree a c :=
  ⟨h1.1.trans h2.1, h1.2.1.trans h2.2.1, h1.2.2.1.trans h2.2.2.1,
    h1.2.2.2.1.trans h2.2.2.2.1, h1.2.2.2.2.1.trans h2.2.2.2.2.1,
    h1.2.2.2.2.2.1.trans h2.2.2.2.2.2.1, h1.2.2.2.2.2.2.trans h2.2.2.2.2.2.2⟩

/-- A run of quiet passes acts on the mouse part as the run of its
`updateMouseJiggle` calls, on the overlay as the run of its `updateLed` calls,
and leaves the rest alone. -/
theorem runLoop_quiet (f : CHSV → CRGB) (ticks : List TickInput) (s a b : State)
    (hq : ∀ i ∈ ticks, PassQuiet i s) (hm : MouseAgree s a) (hl : LedAgree s b) :
    CoreAgree (runLoop f s ticks) s ∧
    MouseAgree (runLoop f s ticks)
      (runJiggle a (ticks.map (fun i => (i.jigConnected, i.jigPin, i.tJiggle)))) ∧
    LedAgree (runLoop f s ticks)
      (runLed f b (ticks.map (fun i => (i.tLed, i.tGradient)))) := by
  induction ticks generalizing s a b with
  | nil =>
    exact ⟨⟨rfl, rfl, rfl, rfl, rfl, rfl, rfl⟩, hm, hl⟩
  | cons i is ih =>
    obtain ⟨q1, q2, q3, _⟩ := quiet_step f i s (hq i (List.mem_cons_self _ _))
    have hq' : ∀ j ∈ is, PassQuiet j (loop f i s) :=
      fun j hj => passQuiet_core j _ _ q1 (hq j (List.mem_cons_of_mem _ hj))
    obtain ⟨r1, r2, r3⟩ := ih (loop f i s)
      (updateMouseJiggle i.jigConnected i.jigPin i.tJiggle a) (updateLed f i.tLed i.tGradient b)
      hq' (mouseAgree_trans q2 (updateMouseJiggle_agree _ _ _ _ _ hm))
      (ledAgree_trans q3 (updateLed_agree f _ _ _ _ hl).1)
    rw [runLoop_cons]
    exact ⟨coreAgree_trans r1 q1, r2, r3⟩

theorem frames_snoc_flush (o : List Event) (x : List CRGB) :
    frames (o ++ [Event.flush x]) = frames o ++ [x] := by
  simp [frames]

/-- The frames shown by a run of `updateLed` calls after an overlay of colour
`c` was requested at the time `T`: solid `c` up to 1000 ms after `T`, the idle
gradient from then on.  `p` is the time of the previous call. -/
theorem runLed_overlay (f : CHSV → CRGB) (c : CRGB) (T : Nat) (ts : List Nat) (s : State)
    (p : Nat) (hcol : s.ledColor = c) (hun : s.ledUntil = add32 T LED_EVENT_MS)
    (hph : s.ledOverride = true ∨ T + 1000 ≤ p) (hTp : T ≤ p)
    (hchain : List.Chain (· ≤ ·) p ts) (hb : ∀ t ∈ ts, t < T + 2147483648) :
    frames (runLed f s (ts.map (fun t => (t, t)))).out =
      frames s.out ++ ts.map (fun t =>
        if t < T + 1000 then List.replicate 25 c else specIdleFrame f (t % U32)) := by
  induction ts generalizing s p with
  | nil => simp [runLed]
  | cons t ts ih =>
    simp only [List.chain_cons] at hchain
    obtain ⟨hpt, hrest⟩ := hchain
    have htb := hb t (List.mem_cons_self _ _)
    have hb' : ∀ x ∈ ts, x < T + 2147483648 := fun x hx => hb x (List.mem_cons_of_mem _ hx)
    have htest : toInt32 (sub32 t s.ledUntil) < 0 ↔ t < T + 1000 := by
      have h := expiry_test T 1000 (t - T) (by norm_num) (by omega)
      have e : T + (t - T) = t := by omega
      rw [e, sub32_mod_left] at h
      rw [hun]
      unfold LED_EVENT_MS
      rw [h]; omega
    have key : (updateLed f t t s).ledColor = c ∧
        (updateLed f t t s).ledUntil = add32 T LED_EVENT_MS ∧
        ((updateLed f t t s).ledOverride = true ∨ T + 1000 ≤ t) ∧
        frames (updateLed f t t s).out = frames s.out ++
          [if t < T + 1000 then List.replicate 25 c else specIdleFrame f (t % U32)] := by
      cases ho : s.ledOverride
      · have hge : T + 1000 ≤ t := by
          rcases hph with h | h
          · rw [ho] at h; cases h
          · omega
        rw [updateLed_inactive f t t s ho, if_neg (by omega)]
        exact ⟨hcol, hun, Or.inr hge, frames_snoc_flush _ _⟩
      · by_cases hlt : toInt32 (sub32 t s.ledUntil) < 0
        · rw [updateLed_solid f t t s ho hlt, if_pos (htest.1 hlt), hcol]
          exact ⟨rfl, hun, Or.inl ho, frames_snoc_flush _ _⟩
        · have hge : T + 1000 ≤ t := by
            by_contra hc
            exact hlt (htest.2 (by omega))
          rw [updateLed_expired f t t s ho (by omega), if_neg (by omega)]
          exact ⟨hcol, hun, Or.inr hge, frames_snoc_flush _ _⟩
    obtain ⟨k1, k2, k3, k4⟩ := key
    simp only [List.map_cons, runLed_cons]
    rw [ih (updateLed f t t s) t k1 k2 k3 (by omega) hrest hb', k4, List.append_assoc]
    rfl

/-! ## The mouse scenario -/

theorem deadline_not_reached (t D : Nat) (h1 : t < D) (h2 : D < 2147483648) :
    ¬ 0 ≤ toInt32 (sub32 t D) := by
  rw [not_le, toInt32_neg_iff]
  unfold sub32 U32
  omega

theorem deadline_reached (t D : Nat) (h1 : D ≤ t) (h2 : t < D + 2147483648) :
    0 ≤ toInt32 (sub32 t D) := by
  rw [← not_lt, toInt32_neg_iff]
  unfold sub32 U32
  omega

theorem deadline_pending (T t : Nat) (h1 : T ≤ t) (h2 : t < T + 120000) :
    ¬ 0 ≤ toInt32 (sub32 t (add32 T MOUSE_PERIOD_MS)) := by
  have h := (clock_tests T (t - T) (by omega)).2.2.2.1
  have e : T + (t - T) = t := by omega
  rw [e, sub32_mod_left] at h
  rw [h]; omega

theorem chain_advancing (T : Nat) (post : List Nat) (p : Nat) (h1 : T ≤ p)
    (h2 : p < T + 120000) (hc : List.Chain (· < ·) p post)
    (hb : ∀ t ∈ post, t < T + 120000) : List.Chain Advancing p post := by
  induction post generalizing p with
  | nil => exact List.Chain.nil
  | cons t ts ih =>
    simp only [List.chain_cons] at hc
    have ht := hb t (List.mem_cons_self _ _)
    refine List.Chain.cons ?_ (ih t (by omega) ht hc.2 (fun x hx => hb x (List.mem_cons_of_mem _ hx)))
    have := hc.1
    unfold Advancing sub32 U32
    omega

theorem chain_le_of_lt (p : Nat) (l : List Nat) (h : List.Chain (· < ·) p l) :
    List.Chain (· ≤ ·) p l :=
  List.Chain.imp (fun _ _ hab => Nat.le_of_lt hab) h

/-- The state after `setup` at clock 0 from the initial values. -/
theorem setup_boot :
    setup 0 State.boot =
      { State.boot with nextMouseMs := 120000,
                        out := [Event.flush (List.replicate 25 CRGB.Black)] } := by
  decide

/-- Before the first deadline, with the button released, a run from boot only
shows the idle gradient. -/
theorem mouse_before_deadline (f : CHSV → CRGB) (pre : List Nat)
    (hpre : ∀ t ∈ pre, t < 120000) :
    CoreAgree (runLoop f (setup 0 State.boot) (pre.map mouseTick)) (setup 0 State.boot) ∧
    MouseAgree (runLoop f (setup 0 State.boot) (pre.map mouseTick)) (setup 0 State.boot) ∧
    (runLoop f (setup 0 State.boot) (pre.map mouseTick)).ledOverride = false ∧
    frames (runLoop f (setup 0 State.boot) (pre.map mouseTick)).out =
      [List.replicate 25 CRGB.Black] ++ pre.map (fun t => specIdleFrame f (t % U32)) := by
  have hq : ∀ i ∈ pre.map mouseTick, PassQuiet i (setup 0 State.boot) := by
    intro i hi
    obtain ⟨t, ht, rfl⟩ := List.mem_map.1 hi
    exact ⟨rfl, Or.inl rfl, rfl, deadline_not_reached t 120000 (hpre t ht) (by norm_num)⟩
  obtain ⟨q1, q2, q3⟩ := runLoop_quiet f (pre.map mouseTick) _ _ _ hq
    (mouseAgree_refl _) ⟨rfl, rfl, rfl, rfl⟩
  rw [runJiggle_idle _ _ rfl] at q2
  have hmap : (pre.map mouseTick).map (fun i => (i.tLed, i.tGradient)) =
      pre.map (fun t => (t, t)) := by
    rw [List.map_map]; rfl
  rw [hmap] at q3
  obtain ⟨l1, l2⟩ := runLed_inactive f (pre.map (fun t => (t, t))) (setup 0 State.boot) rfl
  refine ⟨q1, q2, by rw [q3.1, l1], ?_⟩
  rw [q3.2.2.2, l2, List.map_map]
  rfl

/-- The pass that reaches the deadline, with the button released and quiet,
the transport connected and the disable input not asserted, arms the sequence
and shows solid blue. -/
theorem mouse_arming_pass (f : CHSV → CRGB) (T : Nat) (s : State)
    (hb : s.lastRaw = true ∧ s.stable = true ∧ s.pressedEdge = false)
    (hdue : 0 ≤ toInt32 (sub32 T s.nextMouseMs)) :
    loop f (mouseTick T) s =
      { s with nextMouseMs := add32 T MOUSE_PERIOD_MS,
               ledOverride := true, ledColor := CRGB.Blue, ledUntil := add32 T LED_EVENT_MS,
               jiggle := JiggleState.Up, jiggleMs := T % U32,
               leds := List.replicate 25 CRGB.Blue,
               out := s.out ++ [Event.flush (List.replicate 25 CRGB.Blue)] } := by
  obtain ⟨b1, b2, b3⟩ := hb
  have e1 : updateButton true T s = s :=
    updateButton_keep _ _ _ b1.symm (Or.inl (by rw [b1, b2]))
  have e2 : loopKeyboard (mouseTick T) s = s := loopKeyboard_noedge _ _ b3
  have e3 : loopMouse (mouseTick T) s =
      startMouseJiggle true true T T { s with nextMouseMs := add32 T MOUSE_PERIOD_MS } :=
    loopMouse_due _ _ hdue
  have e4 := startMouseJiggle_ok true true T T
    { s with nextMouseMs := add32 T MOUSE_PERIOD_MS } rfl rfl
  unfold loop
  simp only []
  show updateLed f T T (updateMouseJiggle true true T
    (loopMouse (mouseTick T) (loopKeyboard (mouseTick T) (updateButton true T s)))) = _
  rw [e1, e2, e3, e4, updateMouseJiggle_wait true true T _ rfl rfl, updateLed_solid f T T]
  · rfl
  · exact overlay_visible T T (by rw [sub32_self]; omega)
  · show sub32 T (T % U32) < 25
    rw [sub32_mod_right, sub32_self]; omega

/-- C13: booted at clock 0 (deadline 120000), the button released, the
transport connected and the disable input not asserted, every read of a pass
returning the time of the pass.  In a run of passes at times below 120000
(`pre`) no move is emitted and no arming occurs: the state stays Idle, the
overlay inactive, the deadline 120000, and every frame is the idle gradient.
The first pass at a time `T` of 120000 or more arms the sequence and shows
solid blue.  In the passes that follow with an advancing clock before the
next deadline `T + 120000` (`post`), the frame is solid blue at the times
below `T + 1000` and the idle gradient from then on, and the moves emitted
are the first moves of Up (0,-10), Down (0,10), Left (-10,0), Right (10,0),
in that order, as many as the position of the state reached: all four, the
state being Idle again, once 100 passes have followed the arming. -/
theorem mouse_scenario (f : CHSV → CRGB) (pre : List Nat) (T : Nat) (post : List Nat)
    (hpre : ∀ t ∈ pre, t < 120000) (hT : 120000 ≤ T) (hTb : T < 120000 + 2147483648)
    (hpost : List.Chain (· < ·) T post) (hnext : ∀ t ∈ post, t < T + 120000) :
    (moves (runLoop f (setup 0 State.boot) (pre.map mouseTick)).out = [] ∧
      (runLoop f (setup 0 State.boot) (pre.map mouseTick)).jiggle = JiggleState.Idle ∧
      (runLoop f (setup 0 State.boot) (pre.map mouseTick)).ledOverride = false ∧
      (runLoop f (setup 0 State.boot) (pre.map mouseTick)).nextMouseMs = 120000 ∧
      frames (runLoop f (setup 0 State.boot) (pre.map mouseTick)).out =
        [List.replicate 25 CRGB.Black] ++ pre.map (fun t => specIdleFrame f (t % U32))) ∧
    ((runLoop f (setup 0 State.boot) ((pre ++ [T]).map mouseTick)).jiggle = JiggleState.Up ∧
      (runLoop f (setup 0 State.boot) ((pre ++ [T]).map mouseTick)).jiggleMs = T % U32 ∧
      (runLoop f (setup 0 State.boot) ((pre ++ [T]).map mouseTick)).ledOverride = true ∧
      (runLoop f (setup 0 State.boot) ((pre ++ [T]).map mouseTick)).ledColor = CRGB.Blue ∧
      (runLoop f (setup 0 State.boot) ((pre ++ [T]).map mouseTick)).ledUntil
        = add32 T LED_EVENT_MS ∧
      (runLoop f (setup 0 State.boot) ((pre ++ [T]).map mouseTick)).nextMouseMs
        = add32 T MOUSE_PERIOD_MS ∧
      moves (runLoop f (setup 0 State.boot) ((pre ++ [T]).map mouseTick)).out = [] ∧
      (runLoop f (setup 0 State.boot) ((pre ++ [T]).map mouseTick)).leds
        = List.replicate 25 CRGB.Blue) ∧
    frames (runLoop f (setup 0 State.boot) ((pre ++ T :: post).map mouseTick)).out =
      [List.replicate 25 CRGB.Black] ++ pre.map (fun t => specIdleFrame f (t % U32)) ++
        (T :: post).map (fun t =>
          if t < T + 1000 then List.replicate 25 CRGB.Blue else specIdleFrame f (t % U32)) ∧
    moves (runLoop f (setup 0 State.boot) ((pre ++ T :: post).map mouseTick)).out =
      ([(0, -10), (0, 10), (-10, 0), (10, 0)] : List (Int × Int)).take
        (cycleIndex (runLoop f (setup 0 State.boot)
          ((pre ++ T :: post).map mouseTick)).jiggle) ∧
    (100 ≤ post.length →
      (runLoop f (setup 0 State.boot) ((pre ++ T :: post).map mouseTick)).jiggle
        = JiggleState.Idle ∧
      moves (runLoop f (setup 0 State.boot) ((pre ++ T :: post).map mouseTick)).out =
        [(0, -10), (0, 10), (-10, 0), (10, 0)]) := by
  obtain ⟨a1, a2, a3, a4⟩ := mouse_before_deadline f pre hpre
  -- the state before the arming pass
  generalize hs1 : runLoop f (setup 0 State.boot) (pre.map mouseTick) = s1 at a1 a2 a3 a4
  have hm1 : moves s1.out = [] := by rw [a2.2.2.2]; rfl
  have hj1 : s1.jiggle = JiggleState.Idle := by rw [a2.2.1]; rfl
  have hn1 : s1.nextMouseMs = 120000 := by rw [a1.2.2.2.2.2.1]; rfl
  have hb1 : s1.lastRaw = true ∧ s1.stable = true ∧ s1.pressedEdge = false :=
    ⟨by rw [a1.1]; rfl, by rw [a1.2.1]; rfl, by rw [a1.2.2.2.1]; rfl⟩
  -- the arming pass
  have harm := mouse_arming_pass f T s1 hb1
    (by rw [hn1]; exact deadline_reached T 120000 hT hTb)
  have hrun2 : runLoop f (setup 0 State.boot) ((pre ++ [T]).map mouseTick) =
      loop f (mouseTick T) s1 := by
    rw [List.map_append, runLoop_append, hs1]; rfl
  generalize hs2 : loop f (mouseTick T) s1 = s2 at harm hrun2
  have hj2 : s2.jiggle = JiggleState.Up := by rw [harm]
  have hms2 : s2.jiggleMs = T % U32 := by rw [harm]
  have hm2 : moves s2.out = [] := by
    rw [harm]
    show moves (s1.out ++ [Event.flush (List.replicate 25 CRGB.Blue)]) = []
    rw [moves_append, hm1]; rfl
  have hf2 : frames s2.out = frames s1.out ++ [List.replicate 25 CRGB.Blue] := by
    rw [harm]; exact frames_snoc_flush _ _
  -- the passes after the arming
  have hrun3 : runLoop f (setup 0 State.boot) ((pre ++ T :: post).map mouseTick) =
      runLoop f s2 (post.map mouseTick) := by
    rw [List.map_append, runLoop_append, hs1, List.map_cons, runLoop_cons, hs2]
  have hq : ∀ i ∈ post.map mouseTick, PassQuiet i s2 := by
    intro i hi
    obtain ⟨t, ht, rfl⟩ := List.mem_map.1 hi
    have hTt : T ≤ t := Nat.le_of_lt (List.Chain.rel hpost ht)
    refine ⟨?_, Or.inl ?_, ?_, ?_⟩
    · rw [harm]; exact hb1.1.symm
    · rw [harm]; show s1.stable = s1.lastRaw; rw [hb1.1, hb1.2.1]
    · rw [harm]; exact hb1.2.2
    · rw [harm]; exact deadline_pending T t hTt (hnext t ht)
  have hmapj : (post.map mouseTick).map (fun i => (i.jigConnected, i.jigPin, i.tJiggle)) =
      post.map (fun t => (true, true, t)) := by
    rw [List.map_map]; rfl
  have hmapl : (post.map mouseTick).map (fun i => (i.tLed, i.tGradient)) =
      post.map (fun t => (t, t)) := by
    rw [List.map_map]; rfl
  obtain ⟨_, q2, q3⟩ := runLoop_quiet f (post.map mouseTick) s2 s2 s2 hq
    (mouseAgree_refl _) ⟨rfl, rfl, rfl, rfl⟩
  rw [hmapj] at q2
  rw [hmapl] at q3
  have hen : ∀ c ∈ post.map (fun t => ((true, true, t) : Bool × Bool × Nat)),
      c.1 = true ∧ mouseDisabled c.2.1 = false := by
    intro c hc
    obtain ⟨t, _, rfl⟩ := List.mem_map.1 hc
    exact ⟨rfl, rfl⟩
  obtain ⟨_, hmv⟩ := runJiggle_enabled_moves _ s2 hen
  have hmoves : moves (runLoop f s2 (post.map mouseTick)).out =
      ([(0, -10), (0, 10), (-10, 0), (10, 0)] : List (Int × Int)).take
        (cycleIndex (runLoop f s2 (post.map mouseTick)).jiggle) := by
    rw [q2.2.2.2, hmv, hm2, hj2, q2.2.1]
    simp [cycleIndex, jiggleMoves]
  have hled := runLed_overlay f CRGB.Blue T post s2 T (by rw [harm]) (by rw [harm])
    (Or.inl (by rw [harm])) (le_refl _) (chain_le_of_lt T post hpost)
    (fun t ht => by have := hnext t ht; omega)
  refine ⟨⟨hm1, hj1, a3, hn1, a4⟩, ?_, ?_, ?_, ?_⟩
  · rw [hrun2]
    exact ⟨hj2, hms2, by rw [harm], by rw [harm], by rw [harm], by rw [harm], hm2,
      by rw [harm]⟩
  · rw [hrun3, q3.2.2.2, hled, hf2, a4]
    simp only [List.map_cons, List.append_assoc, List.singleton_append]
    rw [if_pos (by omega)]
  · rw [hrun3]; exact hmoves
  · intro hlen
    rw [hrun3]
    have hidle : (runJiggle s2 (post.map (fun t => ((true, true, t) : Bool × Bool × Nat)))).jiggle
        = JiggleState.Idle := by
      apply runJiggle_live_aux _ s2 T 100 hen
      · intro _
        rw [hms2, sub32_mod_right, sub32_self]; omega
      · rw [List.map_map]
        have : ((fun c : Bool × Bool × Nat => c.2.2) ∘ fun t => (true, true, t)) = id := rfl
        rw [this, List.map_id]
        exact chain_advancing T post T (le_refl _) (by omega) hpost hnext
      · rw [hj2]; simp [cycleIndex]
      · simpa using hlen
    have hj3 : (runLoop f s2 (post.map mouseTick)).jiggle = JiggleState.Idle := by
      rw [q2.2.1]; exact hidle
    refine ⟨hj3, ?_⟩
    rw [hmoves, hj3]
    rfl

/-- C13 at a concrete run: booted at 0, passes at 119990 and 119995, the
arming pass at 120000, then 100 passes 5 ms apart. -/
theorem mouse_scenario_witness :
    (runLoop hsvCopy (setup 0 State.boot)
      (([119990, 119995] ++ 120000 :: List.range' 120005 100 5).map mouseTick)).jiggle
        = JiggleState.Idle ∧
    moves (runLoop hsvCopy (setup 0 State.boot)
      (([119990, 119995] ++ 120000 :: List.range' 120005 100 5).map mouseTick)).out =
        [(0, -10), (0, 10), (-10, 0), (10, 0)] :=
  (mouse_scenario hsvCopy [119990, 119995] 120000 (List.range' 120005 100 5)
    (by decide) (by decide) (by decide)
    (List.chain_lt_range' 120000 100 (show 0 < 5 by decide))
    (by
      intro t ht
      obtain ⟨i, hi, rfl⟩ := List.mem_range'.1 ht
      omega)).2.2.2.2 (by simp)

/-! ## The keyboard scenario -/

end M5Atom
